import Mathlib

/-!
Verification of the `json_to_db.py` migration tool from TG_Talk_Revise.

The tool reads up to four JSON documents (`bots.json`, `msg_map.json`,
`verified_users.json`, `blacklist.json`) and migrates them into a store
through a `database` collaborator.  The migrator itself is embedded below
as pure functions over an explicit `Store`, with a fault oracle standing
for exceptions raised by the store layer.  The `database` module is not
part of this repository; its CRUD operations are modelled from the spec
(each such definition says so in its doc comment).

Modelling notes, applying throughout:
* JSON numbers are integers here; the migrated documents hold message and
  user ids, which are integral.
* Errors are modelled by their count (the code appends message strings to
  `self.stats['errors']`; every claim is about how many errors are logged).
* Python statements that would raise an *uncaught* exception and crash the
  whole process (e.g. calling `.items()` on a non-dict document) are out of
  the modelled domain; the helpers `objItems` / `listItems` / `jsonGet`
  return a neutral value in those cases and each says so in a comment.
-/

/-- A JSON value as produced by `json.load`; numbers restricted to integers
(the migrated documents only carry integral ids). -/
inductive Json where
  | null
  | bool (b : Bool)
  | num (n : Int)
  | str (s : String)
  | arr (elems : List Json)
  | obj (fields : List (String × Json))
deriving Repr, Inhabited

mutual

/-- Decidable equality on JSON values (the `deriving` handler does not cover
this nested inductive, so it is spelled out). -/
def Json.decEq : (a b : Json) → Decidable (a = b)
  | .null, .null => .isTrue rfl
  | .null, .bool _ => .isFalse (fun h => Json.noConfusion h)
  | .null, .num _ => .isFalse (fun h => Json.noConfusion h)
  | .null, .str _ => .isFalse (fun h => Json.noConfusion h)
  | .null, .arr _ => .isFalse (fun h => Json.noConfusion h)
  | .null, .obj _ => .isFalse (fun h => Json.noConfusion h)
  | .bool _, .null => .isFalse (fun h => Json.noConfusion h)
  | .bool x, .bool y =>
    if h : x = y then .isTrue (by rw [h]) else .isFalse (fun he => by cases he; exact h rfl)
  | .bool _, .num _ => .isFalse (fun h => Json.noConfusion h)
  | .bool _, .str _ => .isFalse (fun h => Json.noConfusion h)
  | .bool _, .arr _ => .isFalse (fun h => Json.noConfusion h)
  | .bool _, .obj _ => .isFalse (fun h => Json.noConfusion h)
  | .num _, .null => .isFalse (fun h => Json.noConfusion h)
  | .num _, .bool _ => .isFalse (fun h => Json.noConfusion h)
  | .num x, .num y =>
    if h : x = y then .isTrue (by rw [h]) else .isFalse (fun he => by cases he; exact h rfl)
  | .num _, .str _ => .isFalse (fun h => Json.noConfusion h)
  | .num _, .arr _ => .isFalse (fun h => Json.noConfusion h)
  | .num _, .obj _ => .isFalse (fun h => Json.noConfusion h)
  | .str _, .null => .isFalse (fun h => Json.noConfusion h)
  | .str _, .bool _ => .isFalse (fun h => Json.noConfusion h)
  | .str _, .num _ => .isFalse (fun h => Json.noConfusion h)
  | .str x, .str y =>
    if h : x = y then .isTrue (by rw [h]) else .isFalse (fun he => by cases he; exact h rfl)
  | .str _, .arr _ => .isFalse (fun h => Json.noConfusion h)
  | .str _, .obj _ => .isFalse (fun h => Json.noConfusion h)
  | .arr _, .null => .isFalse (fun h => Json.noConfusion h)
  | .arr _, .bool _ => .isFalse (fun h => Json.noConfusion h)
  | .arr _, .num _ => .isFalse (fun h => Json.noConfusion h)
  | .arr _, .str _ => .isFalse (fun h => Json.noConfusion h)
  | .arr x, .arr y =>
    match Json.decEqList x y with
    | .isTrue h => .isTrue (by rw [h])
    | .isFalse h => .isFalse (fun he => by cases he; exact h rfl)
  | .arr _, .obj _ => .isFalse (fun h => Json.noConfusion h)
  | .obj _, .null => .isFalse (fun h => Json.noConfusion h)
  | .obj _, .bool _ => .isFalse (fun h => Json.noConfusion h)
  | .obj _, .num _ => .isFalse (fun h => Json.noConfusion h)
  | .obj _, .str _ => .isFalse (fun h => Json.noConfusion h)
  | .obj _, .arr _ => .isFalse (fun h => Json.noConfusion h)
  | .obj x, .obj y =>
    match Json.decEqFields x y with
    | .isTrue h => .isTrue (by rw [h])
    | .isFalse h => .isFalse (fun he => by cases he; exact h rfl)

/-- Decidable equality on lists of JSON values. -/
def Json.decEqList : (a b : List Json) → Decidable (a = b)
  | [], [] => .isTrue rfl
  | [], _ :: _ => .isFalse (fun h => List.noConfusion h)
  | _ :: _, [] => .isFalse (fun h => List.noConfusion h)
  | a :: as, b :: bs =>
    match Json.decEq a b with
    | .isFalse h1 => .isFalse (fun he => by injection he with e1 e2; exact h1 e1)
    | .isTrue h1 =>
      match Json.decEqList as bs with
      | .isTrue h2 => .isTrue (by rw [h1, h2])
      | .isFalse h2 => .isFalse (fun he => by injection he with e1 e2; exact h2 e2)

/-- Decidable equality on JSON object field lists. -/
def Json.decEqFields : (a b : List (String × Json)) → Decidable (a = b)
  | [], [] => .isTrue rfl
  | [], _ :: _ => .isFalse (fun h => List.noConfusion h)
  | _ :: _, [] => .isFalse (fun h => List.noConfusion h)
  | (k, v) :: as, (k', v') :: bs =>
    if hk : k = k' then
      match Json.decEq v v' with
      | .isFalse h1 =>
        .isFalse (fun he => by injection he with e1 e2; exact h1 (congrArg Prod.snd e1))
      | .isTrue h1 =>
        match Json.decEqFields as bs with
        | .isTrue h2 => .isTrue (by rw [hk, h1, h2])
        | .isFalse h2 => .isFalse (fun he => by injection he with e1 e2; exact h2 e2)
    else
      .isFalse (fun he => by injection he with e1 e2; exact hk (congrArg Prod.fst e1))

end

instance : DecidableEq Json := Json.decEq

/-- Python truthiness (`if not x`) of a JSON value. -/
def Json.falsy : Json → Bool
  | .null => true
  | .bool b => !b
  | .num n => n == 0
  | .str s => s == ""
  | .arr xs => xs.isEmpty
  | .obj kvs => kvs.isEmpty

/-- Python `str()` of a JSON value.  Containers are collapsed to a marker:
the ids this tool stringifies are scalars ("opaque string-coercible ids" in
the spec), so container values never reach `str` in the modelled domain. -/
def pyStr : Json → String
  | .null => "None"
  | .bool true => "True"
  | .bool false => "False"
  | .num n => toString n
  | .str s => s
  | .arr _ => "<list>"
  | .obj _ => "<dict>"

/-- Python `str.strip()`: drop leading and trailing whitespace (the ASCII
whitespace the operator can realistically type). -/
def pyStrip (s : String) : String :=
  ⟨((s.toList.dropWhile Char.isWhitespace).reverse.dropWhile Char.isWhitespace).reverse⟩

/-- Python `str.lower()` on the ASCII range. -/
def lowerChar (c : Char) : Char :=
  if 'A' ≤ c ∧ c ≤ 'Z' then Char.ofNat (c.toNat + 32) else c

/-- Python `str.lower()`. -/
def pyLower (s : String) : String :=
  ⟨s.toList.map lowerChar⟩

/-- Accumulate decimal digits; `none` on the first non-digit character. -/
def digitsToNat (acc : Nat) : List Char → Option Nat
  | [] => some acc
  | c :: cs => if c.isDigit then digitsToNat (acc * 10 + (c.toNat - 48)) cs else none

/-- Python `int(s)` on a string: optional surrounding whitespace, optional
sign, at least one decimal digit; `none` models a raised `ValueError`.
(Numeric-separator underscores and non-ASCII digits are outside the
modelled domain.) -/
def strToInt (s : String) : Option Int :=
  match (pyStrip s).toList with
  | [] => none
  | '-' :: cs =>
    match cs with
    | [] => none
    | _ => (digitsToNat 0 cs).map (fun n => -(n : Int))
  | '+' :: cs =>
    match cs with
    | [] => none
    | _ => (digitsToNat 0 cs).map (fun n => (n : Int))
  | cs => (digitsToNat 0 cs).map (fun n => (n : Int))

/-- Python `d.get(key, dflt)`.  On a non-dict receiver the code would raise
`AttributeError`; every call site either guards the receiver or would crash
the process, so the default is returned for non-objects here. -/
def jsonGet (d : Json) (key : String) (dflt : Json) : Json :=
  match d with
  | .obj kvs =>
    match kvs.find? (fun kv => kv.1 == key) with
    | some kv => kv.2
    | none => dflt
  | _ => dflt

/-- The key/value pairs of a JSON object (`d.items()`); `[]` for non-objects,
where the code would raise and crash (outside the modelled domain). -/
def objItems : Json → List (String × Json)
  | .obj kvs => kvs
  | _ => []

/-- The elements of a JSON array; `[]` for non-arrays, where iteration in the
code would raise and crash (outside the modelled domain). -/
def listItems : Json → List Json
  | .arr xs => xs
  | _ => []

/-- First-match association lookup. -/
def alookup {α β : Type} [DecidableEq α] (k : α) : List (α × β) → Option β
  | [] => none
  | (a, b) :: t => if a = k then some b else alookup k t

/-- Replace the value at the first occurrence of `k`, or append `(k, v)`. -/
def aupsert {α β : Type} [DecidableEq α] (k : α) (v : β) : List (α × β) → List (α × β)
  | [] => [(k, v)]
  | (a, b) :: t => if a = k then (k, v) :: t else (a, b) :: aupsert k v t

/-- Apply `g` to the value at the first occurrence of `k` (no-op if absent). -/
def amodify {α β : Type} [DecidableEq α] (k : α) (g : β → β) : List (α × β) → List (α × β)
  | [] => []
  | (a, b) :: t => if a = k then (a, g b) :: t else (a, b) :: amodify k g t

/-- Modelled from the spec: a stored bot row.  `database.py` is not in the
repository; `BotConfig` has token, owner id (integer), welcome message,
operating mode (default `"direct"`), and an optional forum/topic-group id. -/
structure BotRow where
  token : Json
  owner : Int
  welcome_msg : Json
  mode : Json
  forum_id : Option Json
deriving Repr, DecidableEq

/-- Modelled from the spec: a stored verified-user row, composite key
(bot handle, user id) with display name and username attributes. -/
structure VerifiedRow where
  handle : Json
  user_id : Json
  user_name : Json
  user_username : Json
deriving Repr, DecidableEq

/-- Modelled from the spec: the target store, with bots keyed by handle,
message mappings keyed by (handle, kind, source id) with string targets,
and verified users and blacklist entries keyed by (handle, user id). -/
structure Store where
  bots : List (Json × BotRow)
  mappings : List ((Json × String × String) × String)
  verified : List VerifiedRow
  blacklist : List (Json × Json)
deriving Repr, DecidableEq

def Store.empty : Store := ⟨[], [], [], []⟩

/-- Fault oracle: which store writes raise an exception.  Reads are assumed
not to fail.  `none` from a write models a raised exception that left the
store unchanged by that operation. -/
structure Faults where
  addBotF : Json → Bool
  updModeF : Json → Bool
  updForumF : Json → Bool
  setMappingF : Json → String → String → Bool
  addVerifiedF : Json → Json → Bool
  addBlacklistF : Json → Json → Bool

def noFaults : Faults :=
  ⟨fun _ => false, fun _ => false, fun _ => false,
   fun _ _ _ => false, fun _ _ => false, fun _ _ => false⟩

/-- Modelled from the spec: `db.get_bot(handle)` — existence lookup of a
bot row by handle (`bot_exists` in the spec's store contract). -/
def get_bot (s : Store) (h : Json) : Option BotRow :=
  alookup h s.bots

/-- Modelled from the spec: `db.add_bot` inserts a `BotConfig` with the
default mode `"direct"` and no forum id; mode and forum id are only changed
by the separate update operations. -/
def add_bot (f : Faults) (s : Store) (h token : Json) (owner : Int) (welcome : Json) :
    Option Store :=
  if f.addBotF h then none
  else some { s with bots := s.bots ++ [(h, ⟨token, owner, welcome, .str "direct", none⟩)] }

/-- Modelled from the spec: `db.update_bot_mode(handle, mode)`. -/
def update_bot_mode (f : Faults) (s : Store) (h mode : Json) : Option Store :=
  if f.updModeF h then none
  else some { s with bots := amodify h (fun r => { r with mode := mode }) s.bots }

/-- Modelled from the spec: `db.update_bot_forum_id(handle, forum_id)`. -/
def update_bot_forum_id (f : Faults) (s : Store) (h fid : Json) : Option Store :=
  if f.updForumF h then none
  else some { s with bots := amodify h (fun r => { r with forum_id := some fid }) s.bots }

/-- Modelled from the spec: `db.set_mapping` upserts under the composite key
(handle, kind, source id); the target id is "string or number, coerced to
string on write". -/
def set_mapping (f : Faults) (s : Store) (h : Json) (kind src : String) (tgt : Json) :
    Option Store :=
  if f.setMappingF h kind src then none
  else some { s with mappings := aupsert (h, kind, src) (pyStr tgt) s.mappings }

/-- Modelled from the spec: `db.is_verified(handle, user_id)`. -/
def is_verified (s : Store) (h uid : Json) : Bool :=
  s.verified.any fun r => decide (r.handle = h ∧ r.user_id = uid)

/-- Modelled from the spec: `db.add_verified_user(handle, user_id, name, username)`. -/
def add_verified_user (f : Faults) (s : Store) (h uid name username : Json) : Option Store :=
  if f.addVerifiedF h uid then none
  else some { s with verified := s.verified ++ [⟨h, uid, name, username⟩] }

/-- Modelled from the spec: `db.is_blacklisted(handle, user_id)`. -/
def is_blacklisted (s : Store) (h uid : Json) : Bool :=
  s.blacklist.any fun p => decide (p.1 = h ∧ p.2 = uid)

/-- Modelled from the spec: `db.add_to_blacklist(handle, user_id)`. -/
def add_to_blacklist (f : Faults) (s : Store) (h uid : Json) : Option Store :=
  if f.addBlacklistF h uid then none
  else some { s with blacklist := s.blacklist ++ [(h, uid)] }

/-- The migrator's running counters (`self.stats`); `errors` counts the
messages appended to `self.stats['errors']`. -/
structure Stats where
  bots : Nat
  mappings : Nat
  verified_users : Nat
  blacklist : Nat
  errors : Nat
deriving Repr, DecidableEq

def Stats.init : Stats := ⟨0, 0, 0, 0, 0⟩

/-- The migrator's mutable state: the external store plus `self.stats`. -/
structure MigState where
  store : Store
  stats : Stats
deriving Repr, DecidableEq

/-- Append one message to the error list. -/
def addError (st : MigState) : MigState :=
  { st with stats := { st.stats with errors := st.stats.errors + 1 } }

/-- What `load_json_file` can observe about one input file. -/
inductive FileState where
  | absent
  | invalid
  | parsed (doc : Json)
deriving Repr, DecidableEq

/-- `load_json_file`: a missing file yields `None` silently; a file that
fails to parse logs one error and yields `None`; a parsed file yields its
document.  No exception escapes. -/
def load_json_file (fs : FileState) (st : MigState) : Option Json × MigState :=
  match fs with
  | .absent => (none, st)
  | .invalid => (none, addError st)
  | .parsed d => (some d, st)

/-! ## The four migration passes, transliterated from `json_to_db.py` -/

/-- Bump the bot counter (`self.stats['bots'] += 1`). -/
def bumpBot (st : MigState) : MigState :=
  { st with stats := { st.stats with bots := st.stats.bots + 1 } }

/-- Tail of one bot record's try-block: the conditional forum-id update and,
on success, the counter bump. -/
def botForumStep (f : Faults) (bu fid : Json) (st : MigState) : MigState :=
  if fid.falsy then bumpBot st
  else
    match update_bot_forum_id f st.store bu fid with
    | none => addError st
    | some s => bumpBot { st with store := s }

/-- Process one record of `bots.json` (`migrate_bots`'s inner loop body). -/
def botStep (f : Faults) (ownerId : String) (st : MigState) (bot : Json) : MigState :=
  let bot_username := jsonGet bot "bot_username" .null
  let token := jsonGet bot "token" .null
  let welcome_msg := jsonGet bot "welcome_msg" (.str "")
  let mode := jsonGet bot "mode" (.str "direct")
  let forum_group_id := jsonGet bot "forum_group_id" .null
  if bot_username.falsy ∨ token.falsy then addError st
  else if (get_bot st.store bot_username).isSome then st
  else
    match strToInt ownerId with
    | none => addError st
    | some owner =>
      match add_bot f st.store bot_username token owner welcome_msg with
      | none => addError st
      | some s1 =>
        if mode.falsy ∨ mode = Json.str "direct" then
          botForumStep f bot_username forum_group_id { st with store := s1 }
        else
          match update_bot_mode f s1 bot_username mode with
          | none => addError { st with store := s1 }
          | some s2 => botForumStep f bot_username forum_group_id { st with store := s2 }

/-- Process one owner entry of `bots.json` (`for bot in owner_data.get('bots', [])`). -/
def botOwnerStep (f : Faults) (st : MigState) (g : String × Json) : MigState :=
  (listItems (jsonGet g.2 "bots" (.arr []))).foldl (botStep f g.1) st

/-- `migrate_bots`: load `bots.json`, return early on a missing/invalid/falsy
document, else walk every owner's bot list. -/
def migrate_bots (f : Faults) (fs : FileState) (st : MigState) : MigState :=
  let r := load_json_file fs st
  match r.1 with
  | none => r.2
  | some d => if d.falsy then r.2 else (objItems d).foldl (botOwnerStep f) r.2

/-- Write one mapping entry, carrying the group's local `count`
(`db.set_mapping(...)` then `count += 1`, exceptions logged per entry). -/
def mapEntryStep (f : Faults) (bu : Json) (kind : String) (a : MigState × Nat)
    (e : String × Json) : MigState × Nat :=
  match set_mapping f a.1.store bu kind e.1 e.2 with
  | none => (addError a.1, a.2)
  | some s => ({ a.1 with store := s }, a.2 + 1)

/-- Process one bot's group of `msg_map.json`: gate on bot existence, then
migrate the five sub-mappings read from the JSON keys `direct`, `topics`,
`user_to_forward`, `forward_to_user`, `owner_to_user` as the mapping kinds
`direct`, `topic`, `user_forward`, `forward_user`, `owner_user`; the
`topics` values additionally pass through Python `str()` at the call. -/
def mapGroupStep (f : Faults) (st : MigState) (g : String × Json) : MigState :=
  let bu := Json.str g.1
  if (get_bot st.store bu).isNone then addError st
  else
    let a1 := (objItems (jsonGet g.2 "direct" (.obj []))).foldl
      (mapEntryStep f bu "direct") (st, 0)
    let a2 := ((objItems (jsonGet g.2 "topics" (.obj []))).map
      (fun e => (e.1, Json.str (pyStr e.2)))).foldl (mapEntryStep f bu "topic") a1
    let a3 := (objItems (jsonGet g.2 "user_to_forward" (.obj []))).foldl
      (mapEntryStep f bu "user_forward") a2
    let a4 := (objItems (jsonGet g.2 "forward_to_user" (.obj []))).foldl
      (mapEntryStep f bu "forward_user") a3
    let a5 := (objItems (jsonGet g.2 "owner_to_user" (.obj []))).foldl
      (mapEntryStep f bu "owner_user") a4
    { a5.1 with stats := { a5.1.stats with mappings := a5.1.stats.mappings + a5.2 } }

/-- `migrate_mappings`: load `msg_map.json` and walk every bot's group. -/
def migrate_mappings (f : Faults) (fs : FileState) (st : MigState) : MigState :=
  let r := load_json_file fs st
  match r.1 with
  | none => r.2
  | some d => if d.falsy then r.2 else (objItems d).foldl (mapGroupStep f) r.2

/-- One raw-id entry of a list-shaped verified-user group: skip if already
verified, else insert with empty name and username; the raw id is passed
through unchanged. -/
def verifiedListStep (f : Faults) (bu : Json) (a : MigState × Nat) (uid : Json) :
    MigState × Nat :=
  if is_verified a.1.store bu uid then a
  else
    match add_verified_user f a.1.store bu uid (.str "") (.str "") with
    | none => (addError a.1, a.2)
    | some s => ({ a.1 with store := s }, a.2 + 1)

/-- One entry of a dict-shaped verified-user group: `int(user_id_str)` first
(`ValueError` → per-entry error), then the detail object's optional
`user_name`/`user_username` (a non-dict detail raises → per-entry error),
then the skip-or-insert. -/
def verifiedDictStep (f : Faults) (bu : Json) (a : MigState × Nat) (e : String × Json) :
    MigState × Nat :=
  match strToInt e.1 with
  | none => (addError a.1, a.2)
  | some n =>
    match e.2 with
    | .obj fields =>
      let name := jsonGet (.obj fields) "user_name" (.str "")
      let username := jsonGet (.obj fields) "user_username" (.str "")
      if is_verified a.1.store bu (.num n) then a
      else
        match add_verified_user f a.1.store bu (.num n) name username with
        | none => (addError a.1, a.2)
        | some s => ({ a.1 with store := s }, a.2 + 1)
    | _ => (addError a.1, a.2)

/-- Process one bot's group of `verified_users.json`: gate on bot existence,
then dispatch on the group's shape (`isinstance(users, list)` /
`isinstance(users, dict)`; any other shape matches neither branch). -/
def verifiedGroupStep (f : Faults) (st : MigState) (g : String × Json) : MigState :=
  let bu := Json.str g.1
  if (get_bot st.store bu).isNone then addError st
  else
    let a :=
      match g.2 with
      | .arr l => l.foldl (verifiedListStep f bu) (st, 0)
      | .obj kvs => kvs.foldl (verifiedDictStep f bu) (st, 0)
      | _ => (st, 0)
    { a.1 with stats := { a.1.stats with verified_users := a.1.stats.verified_users + a.2 } }

/-- `migrate_verified_users`: load `verified_users.json` and walk the groups. -/
def migrate_verified_users (f : Faults) (fs : FileState) (st : MigState) : MigState :=
  let r := load_json_file fs st
  match r.1 with
  | none => r.2
  | some d => if d.falsy then r.2 else (objItems d).foldl (verifiedGroupStep f) r.2

/-- One entry of a blacklist group: skip if already blacklisted, else insert. -/
def blacklistStep (f : Faults) (bu : Json) (a : MigState × Nat) (uid : Json) :
    MigState × Nat :=
  if is_blacklisted a.1.store bu uid then a
  else
    match add_to_blacklist f a.1.store bu uid with
    | none => (addError a.1, a.2)
    | some s => ({ a.1 with store := s }, a.2 + 1)

/-- Process one bot's group of `blacklist.json`: gate on bot existence, then
walk the id list. -/
def blacklistGroupStep (f : Faults) (st : MigState) (g : String × Json) : MigState :=
  let bu := Json.str g.1
  if (get_bot st.store bu).isNone then addError st
  else
    let a := (listItems g.2).foldl (blacklistStep f bu) (st, 0)
    { a.1 with stats := { a.1.stats with blacklist := a.1.stats.blacklist + a.2 } }

/-- `migrate_blacklist`: load `blacklist.json` and walk the groups. -/
def migrate_blacklist (f : Faults) (fs : FileState) (st : MigState) : MigState :=
  let r := load_json_file fs st
  match r.1 with
  | none => r.2
  | some d => if d.falsy then r.2 else (objItems d).foldl (blacklistGroupStep f) r.2

/-! ## The driver -/

/-- The inputs `run()` observes: directory existence, the operator's answer
to the confirmation prompt, and the state of the four source files. -/
structure RunInput where
  dirExists : Bool
  confirm : String
  botsFile : FileState
  mapFile : FileState
  verifiedFile : FileState
  blacklistFile : FileState

/-- The four passes in their fixed order (bots, mappings, verified users,
blacklist). -/
def migrateAll (f : Faults) (inp : RunInput) (st : MigState) : MigState :=
  migrate_blacklist f inp.blacklistFile
    (migrate_verified_users f inp.verifiedFile
      (migrate_mappings f inp.mapFile
        (migrate_bots f inp.botsFile st)))

/-- `confirm.strip().lower() in ['y', 'yes']`. -/
def confirmAccepted (s : String) : Bool :=
  decide (pyLower (pyStrip s) = "y" ∨ pyLower (pyStrip s) = "yes")

/-- `run()`: abort (returning `False`, before any store access) when the
source directory is missing or the operator declines; otherwise run the four
passes and return `True` regardless of recorded errors. -/
def run (f : Faults) (inp : RunInput) (st : MigState) : Bool × MigState :=
  if inp.dirExists = false then (false, st)
  else if confirmAccepted inp.confirm = false then (false, st)
  else (true, migrateAll f inp st)

/-- `main`'s `sys.exit(0 if success else 1)`. -/
def exitCode (success : Bool) : Nat :=
  if success then 0 else 1

/-! ## Specification-level descriptions of the passes' write sets -/

/-- The mapping key type: (bot handle, mapping kind, source id). -/
abbrev MapKey := Json × String × String

/-- Apply a list of upserts to a mapping table, first to last. -/
def applyWrites (w : List (MapKey × String)) (m : List (MapKey × String)) :
    List (MapKey × String) :=
  w.foldl (fun acc kv => aupsert kv.1 kv.2 acc) m

/-- Last-wins lookup in a write list. -/
def wLast (k : MapKey) : List (MapKey × String) → Option String
  | [] => none
  | kv :: t =>
    match wLast k t with
    | some v => some v
    | none => if kv.1 = k then some kv.2 else none

/-- The upserts one sub-mapping contributes: every entry, keyed by
(handle, kind, source), its target coerced to a string. -/
def subWrites (bu : Json) (kind : String) (es : List (String × Json)) :
    List (MapKey × String) :=
  es.map fun e => ((bu, kind, e.1), pyStr e.2)

/-- The upserts one bot's `msg_map.json` group contributes: the five
sub-mappings read from the JSON keys `direct`, `topics`, `user_to_forward`,
`forward_to_user`, `owner_to_user`, written as the mapping kinds `direct`,
`topic`, `user_forward`, `forward_user`, `owner_user`. -/
def groupWrites (bu : String) (m : Json) : List (MapKey × String) :=
  subWrites (.str bu) "direct" (objItems (jsonGet m "direct" (.obj []))) ++
  subWrites (.str bu) "topic" (objItems (jsonGet m "topics" (.obj []))) ++
  subWrites (.str bu) "user_forward" (objItems (jsonGet m "user_to_forward" (.obj []))) ++
  subWrites (.str bu) "forward_user" (objItems (jsonGet m "forward_to_user" (.obj []))) ++
  subWrites (.str bu) "owner_user" (objItems (jsonGet m "owner_to_user" (.obj [])))

/-- The upserts a whole `msg_map.json` document performs against a given bot
table: groups whose bot is absent contribute nothing. -/
def mappingWrites (bots : List (Json × BotRow)) (doc : Json) : List (MapKey × String) :=
  ((objItems doc).map fun g =>
    if (alookup (Json.str g.1) bots).isSome then groupWrites g.1 g.2 else []).flatten

/-- All upserts a `msg_map.json` document describes, ignoring the
bot-existence gate. -/
def allMappingWrites (doc : Json) : List (MapKey × String) :=
  ((objItems doc).map fun g => groupWrites g.1 g.2).flatten

/-- The number of groups of a document whose bot handle is absent. -/
def missingGroups (bots : List (Json × BotRow)) (doc : Json) : Nat :=
  ((objItems doc).filter fun g => (alookup (Json.str g.1) bots).isNone).length

/-- The (owner id, bot record) pairs `migrate_bots` processes, in order. -/
def botsRecords (d : Json) : List (String × Json) :=
  ((objItems d).map fun g =>
    (listItems (jsonGet g.2 "bots" (.arr []))).map fun b => (g.1, b)).flatten

/-- Every record of the document that could be inserted (valid fields,
parsable owner) has its handle present in the bot table. -/
def botsDone (s : Store) (d : Json) : Prop :=
  ∀ r ∈ botsRecords d, (jsonGet r.2 "bot_username" .null).falsy = false →
    (jsonGet r.2 "token" .null).falsy = false → (strToInt r.1).isSome = true →
    (alookup (jsonGet r.2 "bot_username" .null) s.bots).isSome = true

/-- The (handle, user id) keys one verified-users group would insert in the
absence of dedup: raw ids for the list shape; parsed ids whose detail is an
object for the dict shape. -/
def vGroupKeys (g : String × Json) : List (Json × Json) :=
  match g.2 with
  | .arr l => l.map fun u => (Json.str g.1, u)
  | .obj kvs => kvs.filterMap fun e =>
      match strToInt e.1, e.2 with
      | some n, .obj _ => some (Json.str g.1, Json.num n)
      | _, _ => none
  | _ => []

/-- The insertable (handle, user id) keys of a whole `verified_users.json`
document against a given bot table. -/
def vKeys (bots : List (Json × BotRow)) (doc : Json) : List (Json × Json) :=
  ((objItems doc).map fun g =>
    if (alookup (Json.str g.1) bots).isSome then vGroupKeys g else []).flatten

/-- The insertable (handle, user id) keys of a `blacklist.json` document. -/
def bKeys (bots : List (Json × BotRow)) (doc : Json) : List (Json × Json) :=
  ((objItems doc).map fun g =>
    if (alookup (Json.str g.1) bots).isSome then
      (listItems g.2).map fun u => (Json.str g.1, u)
    else []).flatten

/-! ## Association-list and fold helper lemmas -/

theorem alookup_aupsert {α β : Type} [DecidableEq α] (k k' : α) (v : β)
    (l : List (α × β)) :
    alookup k' (aupsert k v l) = if k' = k then some v else alookup k' l := by
  induction l with
  | nil =>
    by_cases h : k' = k
    · subst h; simp [aupsert, alookup]
    · simp [aupsert, alookup, h, Ne.symm h]
  | cons kv t ih =>
    obtain ⟨a, b⟩ := kv
    by_cases hak : a = k
    · subst hak
      by_cases h : k' = a
      · subst h; simp [aupsert, alookup]
      · simp [aupsert, alookup, h, Ne.symm h]
    · by_cases h : k' = a
      · subst h
        have hk : ¬k' = k := fun hc => hak hc
        simp [aupsert, alookup, hak, hk]
      · simp [aupsert, alookup, hak, Ne.symm h, ih]

theorem aupsert_eq_self {α β : Type} [DecidableEq α] (k : α) (v : β)
    (l : List (α × β)) (h : alookup k l = some v) : aupsert k v l = l := by
  induction l with
  | nil => simp [alookup] at h
  | cons kv t ih =>
    obtain ⟨a, b⟩ := kv
    by_cases hak : a = k
    · subst hak
      have hb : b = v := by simpa [alookup] using h
      subst hb
      simp [aupsert]
    · simp only [alookup, if_neg hak] at h
      simp [aupsert, hak, ih h]

theorem alookup_amodify {α β : Type} [DecidableEq α] (k k' : α) (g : β → β)
    (l : List (α × β)) :
    alookup k' (amodify k g l) =
      if k' = k then (alookup k l).map g else alookup k' l := by
  induction l with
  | nil =>
    by_cases h : k' = k <;> simp [alookup, amodify, h]
  | cons kv t ih =>
    obtain ⟨a, b⟩ := kv
    by_cases hak : a = k
    · subst hak
      by_cases h : k' = a
      · subst h; simp [alookup, amodify]
      · simp [alookup, amodify, h, Ne.symm h]
    · by_cases h : k' = a
      · subst h
        have hk : ¬k' = k := fun hc => hak hc
        simp [alookup, amodify, hak, hk]
      · simp [alookup, amodify, hak, Ne.symm h, ih]

theorem alookup_append {α β : Type} [DecidableEq α] (k : α) (l m : List (α × β)) :
    alookup k (l ++ m) =
      (match alookup k l with
       | some b => some b
       | none => alookup k m) := by
  induction l with
  | nil => simp [alookup]
  | cons kv t ih =>
    obtain ⟨a, b⟩ := kv
    by_cases h : a = k <;> simp [alookup, h, ih]

theorem alookup_append_isSome {α β : Type} [DecidableEq α] (k : α) (l m : List (α × β))
    (h : (alookup k l).isSome = true) : (alookup k (l ++ m)).isSome = true := by
  rw [alookup_append]
  obtain ⟨b, hb⟩ := Option.isSome_iff_exists.mp h
  simp [hb]

theorem amodify_append_of_absent {α β : Type} [DecidableEq α] (k : α) (g : β → β)
    (l : List (α × β)) (b : β) (h : alookup k l = none) :
    amodify k g (l ++ [(k, b)]) = l ++ [(k, g b)] := by
  induction l with
  | nil => simp [amodify]
  | cons kv t ih =>
    obtain ⟨a, c⟩ := kv
    by_cases hak : a = k
    · simp [alookup, hak] at h
    · simp only [alookup, if_neg hak] at h
      simp [amodify, hak, ih h]

theorem foldl_invariant_mem {α β : Type} (P : α → Prop) (step : α → β → α)
    (l : List β) (hstep : ∀ a x, x ∈ l → P a → P (step a x)) :
    ∀ a, P a → P (l.foldl step a) := by
  induction l with
  | nil => intro a h; simpa using h
  | cons x t ih =>
    intro a h
    simp only [List.foldl_cons]
    exact ih (fun a y hy => hstep a y (List.mem_cons_of_mem _ hy)) _
      (hstep a x (List.mem_cons_self _ _) h)

theorem foldl_reach {α β : Type} (Q : β → α → Prop) (step : α → β → α)
    (hstep : ∀ a x, Q x (step a x)) (hmono : ∀ a x y, Q y a → Q y (step a x)) :
    ∀ (l : List β) (a : α), ∀ x ∈ l, Q x (l.foldl step a) := by
  intro l
  induction l with
  | nil => intro a x hx; simp at hx
  | cons z t ih =>
    intro a x hx
    rcases List.mem_cons.mp hx with h | h
    · subst h
      simp only [List.foldl_cons]
      exact foldl_invariant_mem (Q x) step t (fun a y _ => hmono a y x) _ (hstep a x)
    · exact ih _ x h

theorem alookup_amodify_isSome {α β : Type} [DecidableEq α] (k k' : α) (g : β → β)
    (l : List (α × β)) :
    (alookup k' (amodify k g l)).isSome = (alookup k' l).isSome := by
  rw [alookup_amodify]
  by_cases h : k' = k
  · subst h; simp
  · simp [h]

theorem alookup_append_single_absent {α β : Type} [DecidableEq α] (k : α) (v : β)
    (l : List (α × β)) (h : alookup k l = none) :
    alookup k (l ++ [(k, v)]) = some v := by
  rw [alookup_append, h]
  simp [alookup]

theorem foldl_flatten_map {α β γ : Type} (f : γ → List β) (step : α → β → α)
    (l : List γ) (a : α) :
    ((l.map f).flatten).foldl step a = l.foldl (fun a g => (f g).foldl step a) a := by
  induction l generalizing a with
  | nil => rfl
  | cons g t ih => simp [List.foldl_append, ih]

/-! ## Lemmas about `migrate_bots` -/

/-- `botStep` only touches the bot table, the bot counter and the errors. -/
def BotsOnly (st st' : MigState) : Prop :=
  st'.store.mappings = st.store.mappings ∧ st'.store.verified = st.store.verified ∧
  st'.store.blacklist = st.store.blacklist ∧ st'.stats.mappings = st.stats.mappings ∧
  st'.stats.verified_users = st.stats.verified_users ∧
  st'.stats.blacklist = st.stats.blacklist

theorem botsOnly_refl {st : MigState} : BotsOnly st st :=
  ⟨rfl, rfl, rfl, rfl, rfl, rfl⟩

theorem botsOnly_trans {a b c : MigState} (h1 : BotsOnly a b) (h2 : BotsOnly b c) :
    BotsOnly a c := by
  obtain ⟨x1, x2, x3, x4, x5, x6⟩ := h1
  obtain ⟨y1, y2, y3, y4, y5, y6⟩ := h2
  exact ⟨y1.trans x1, y2.trans x2, y3.trans x3, y4.trans x4, y5.trans x5, y6.trans x6⟩

theorem botStep_botsOnly (f : Faults) (o : String) (st : MigState) (b : Json) :
    BotsOnly st (botStep f o st b) := by
  simp only [botStep, botForumStep]
  by_cases h1 : f.addBotF (jsonGet b "bot_username" .null) = true <;>
  by_cases h2 : f.updModeF (jsonGet b "bot_username" .null) = true <;>
  by_cases h3 : f.updForumF (jsonGet b "bot_username" .null) = true <;>
  simp only [add_bot, update_bot_mode, update_bot_forum_id, h1, h2, h3, if_true, if_false,
    ite_true, ite_false, Bool.not_eq_true, if_neg, if_pos] <;>
  repeat' split
  all_goals exact ⟨rfl, rfl, rfl, rfl, rfl, rfl⟩

theorem botStep_mono (f : Faults) (o : String) (st : MigState) (b : Json) (h' : Json)
    (hpre : (alookup h' st.store.bots).isSome = true) :
    (alookup h' (botStep f o st b).store.bots).isSome = true := by
  simp only [botStep, botForumStep]
  by_cases h1 : f.addBotF (jsonGet b "bot_username" .null) = true <;>
  by_cases h2 : f.updModeF (jsonGet b "bot_username" .null) = true <;>
  by_cases h3 : f.updForumF (jsonGet b "bot_username" .null) = true <;>
  simp only [add_bot, update_bot_mode, update_bot_forum_id, h1, h2, h3, if_true, if_false,
    ite_true, ite_false, Bool.not_eq_true, if_neg, if_pos] <;>
  repeat' split
  all_goals try simp only [addError, bumpBot, alookup_amodify_isSome]
  all_goals first
    | exact hpre
    | exact alookup_append_isSome _ _ _ hpre

theorem botStep_post (o : String) (st : MigState) (b : Json)
    (hu : (jsonGet b "bot_username" .null).falsy = false)
    (ht : (jsonGet b "token" .null).falsy = false)
    (hp : (strToInt o).isSome = true) :
    (alookup (jsonGet b "bot_username" .null)
      (botStep noFaults o st b).store.bots).isSome = true := by
  by_cases hc2 : (alookup (jsonGet b "bot_username" .null) st.store.bots).isSome = true
  · exact botStep_mono _ _ _ _ _ hc2
  · obtain ⟨n, hn⟩ := Option.isSome_iff_exists.mp hp
    have habs : alookup (jsonGet b "bot_username" .null) st.store.bots = none := by
      cases hx : alookup (jsonGet b "bot_username" .null) st.store.bots with
      | none => rfl
      | some r => rw [hx] at hc2; simp at hc2
    simp only [botStep, botForumStep, add_bot, update_bot_mode, update_bot_forum_id,
      noFaults, get_bot, hu, ht, hn, habs, Bool.false_eq_true, or_self, if_false,
      ite_false, Option.isSome_none, Option.isSome_some, if_true, ite_true]
    repeat' split
    all_goals simp only [addError, bumpBot, alookup_amodify_isSome]
    all_goals rw [alookup_append_single_absent _ _ _ habs]
    all_goals rfl

theorem botStep_fixed (o : String) (st : MigState) (b : Json)
    (hp : (jsonGet b "bot_username" .null).falsy = false →
          (jsonGet b "token" .null).falsy = false → (strToInt o).isSome = true →
          (alookup (jsonGet b "bot_username" .null) st.store.bots).isSome = true) :
    botStep noFaults o st b = st ∨ botStep noFaults o st b = addError st := by
  by_cases hc1 : ((jsonGet b "bot_username" .null).falsy = true ∨
      (jsonGet b "token" .null).falsy = true)
  · right
    simp [botStep, hc1]
  · rw [not_or] at hc1
    obtain ⟨h1, h2⟩ := hc1
    have h1' : (jsonGet b "bot_username" .null).falsy = false := by simpa using h1
    have h2' : (jsonGet b "token" .null).falsy = false := by simpa using h2
    cases hso : strToInt o with
    | none =>
      by_cases hc2 : (alookup (jsonGet b "bot_username" .null) st.store.bots).isSome = true
      · left
        simp [botStep, get_bot, h1', h2', hc2]
      · right
        simp [botStep, get_bot, h1', h2', hc2, hso]
    | some n =>
      have hc2 := hp h1' h2' (by simp [hso])
      left
      simp [botStep, get_bot, h1', h2', hc2]

/-- One (owner id, bot record) pair, as a uniform fold step. -/
def botPairStep (f : Faults) (a : MigState) (r : String × Json) : MigState :=
  botStep f r.1 a r.2

theorem botOwnerStep_eq (f : Faults) (st : MigState) (g : String × Json) :
    botOwnerStep f st g =
      ((listItems (jsonGet g.2 "bots" (.arr []))).map fun b => (g.1, b)).foldl
        (botPairStep f) st := by
  simp [botOwnerStep, botPairStep, List.foldl_map]

theorem objItems_of_falsy (d : Json) (h : d.falsy = true) : objItems d = [] := by
  cases d <;> simp_all [Json.falsy, objItems, List.isEmpty_iff]

theorem migrate_bots_parsed (f : Faults) (d : Json) (st : MigState) :
    migrate_bots f (.parsed d) st = (botsRecords d).foldl (botPairStep f) st := by
  simp only [migrate_bots, load_json_file]
  by_cases hf : d.falsy = true
  · simp [hf, botsRecords, objItems_of_falsy d hf]
  · simp only [Bool.not_eq_true] at hf
    simp only [hf, Bool.false_eq_true, if_false, ite_false]
    rw [botsRecords, foldl_flatten_map]
    congr 1
    funext a g
    rw [botOwnerStep_eq]

theorem migrate_bots_botsOnly (f : Faults) (fs : FileState) (st : MigState) :
    BotsOnly st (migrate_bots f fs st) := by
  cases fs with
  | absent => exact botsOnly_refl
  | invalid => exact ⟨rfl, rfl, rfl, rfl, rfl, rfl⟩
  | parsed d =>
    rw [migrate_bots_parsed]
    exact foldl_invariant_mem (BotsOnly st) (botPairStep f) _
      (fun a x _ h => botsOnly_trans h (botStep_botsOnly f x.1 a x.2)) st botsOnly_refl

theorem migrate_bots_mono (f : Faults) (fs : FileState) (st : MigState) (h' : Json)
    (hpre : (alookup h' st.store.bots).isSome = true) :
    (alookup h' (migrate_bots f fs st).store.bots).isSome = true := by
  cases fs with
  | absent => exact hpre
  | invalid => exact hpre
  | parsed d =>
    rw [migrate_bots_parsed]
    exact foldl_invariant_mem (fun a => (alookup h' a.store.bots).isSome = true)
      (botPairStep f) _ (fun a x _ h => botStep_mono f x.1 a x.2 h' h) st hpre

theorem migrate_bots_post (d : Json) (st : MigState) :
    botsDone (migrate_bots noFaults (.parsed d) st).store d := by
  rw [migrate_bots_parsed]
  intro r hr hu ht hp
  exact foldl_reach
    (fun (x : String × Json) (a : MigState) =>
      (jsonGet x.2 "bot_username" .null).falsy = false →
      (jsonGet x.2 "token" .null).falsy = false → (strToInt x.1).isSome = true →
      (alookup (jsonGet x.2 "bot_username" .null) a.store.bots).isSome = true)
    (botPairStep noFaults)
    (fun a x hu ht hp => botStep_post x.1 a x.2 hu ht hp)
    (fun a x y hq hu ht hp =>
      botStep_mono noFaults x.1 a x.2 (jsonGet y.2 "bot_username" .null) (hq hu ht hp))
    (botsRecords d) st r hr hu ht hp

theorem migrate_bots_fixed (fs : FileState) (st : MigState)
    (hd : ∀ d, fs = .parsed d → botsDone st.store d) :
    (migrate_bots noFaults fs st).store = st.store ∧
    (migrate_bots noFaults fs st).stats.bots = st.stats.bots := by
  cases fs with
  | absent => exact ⟨rfl, rfl⟩
  | invalid => exact ⟨rfl, rfl⟩
  | parsed d =>
    rw [migrate_bots_parsed]
    refine foldl_invariant_mem
      (fun a => a.store = st.store ∧ a.stats.bots = st.stats.bots)
      (botPairStep noFaults) _ ?_ st ⟨rfl, rfl⟩
    intro a x hx ⟨has, hab⟩
    have hrec := hd d rfl x hx
    rcases botStep_fixed x.1 a x.2
      (fun hu ht hp => by rw [has]; exact hrec hu ht hp) with he | he
    · rw [botPairStep, he]; exact ⟨has, hab⟩
    · rw [botPairStep, he]; exact ⟨has, hab⟩

/-! ## Characterization of `migrate_mappings` -/

/-- `mappingWrites`, over an explicit group list. -/
def mappingWritesL (bots : List (Json × BotRow)) (gs : List (String × Json)) :
    List (MapKey × String) :=
  (gs.map fun g =>
    if (alookup (Json.str g.1) bots).isSome then groupWrites g.1 g.2 else []).flatten

/-- `missingGroups`, over an explicit group list. -/
def missingGroupsL (bots : List (Json × BotRow)) (gs : List (String × Json)) : Nat :=
  (gs.filter fun g => (alookup (Json.str g.1) bots).isNone).length

theorem mapEntryStep_noFaults (bu : Json) (kind : String) (a : MigState × Nat)
    (e : String × Json) :
    mapEntryStep noFaults bu kind a e =
      ({ a.1 with store := { a.1.store with
          mappings := aupsert (bu, kind, e.1) (pyStr e.2) a.1.store.mappings } },
        a.2 + 1) := by
  simp [mapEntryStep, set_mapping, noFaults]

theorem foldl_mapEntry (bu : Json) (kind : String) (es : List (String × Json)) :
    ∀ (st : MigState) (c : Nat),
    es.foldl (mapEntryStep noFaults bu kind) (st, c) =
      ({ st with store := { st.store with
          mappings := applyWrites (subWrites bu kind es) st.store.mappings } },
        c + es.length) := by
  induction es with
  | nil => intro st c; simp [subWrites, applyWrites]
  | cons e t ih =>
    intro st c
    rw [List.foldl_cons, mapEntryStep_noFaults, ih]
    simp only [subWrites, List.map_cons, applyWrites, List.foldl_cons, List.length_cons]
    refine Prod.ext ?_ ?_
    · rfl
    · simp
      omega

theorem subWrites_topics (bu : Json) (es : List (String × Json)) :
    subWrites bu "topic" (es.map fun e => (e.1, Json.str (pyStr e.2))) =
      subWrites bu "topic" es := by
  simp only [subWrites, List.map_map]
  rfl

theorem applyWrites_append (a b : List (MapKey × String)) (m : List (MapKey × String)) :
    applyWrites (a ++ b) m = applyWrites b (applyWrites a m) :=
  List.foldl_append _ _ _ _

theorem subWrites_length (bu : Json) (kind : String) (es : List (String × Json)) :
    (subWrites bu kind es).length = es.length := by
  simp [subWrites]

theorem mapGroupStep_missing (f : Faults) (st : MigState) (g : String × Json)
    (hb : (get_bot st.store (.str g.1)).isNone = true) :
    mapGroupStep f st g = addError st := by
  simp [mapGroupStep, hb]

theorem mapGroupStep_present (st : MigState) (g : String × Json)
    (hb : (get_bot st.store (.str g.1)).isSome = true) :
    mapGroupStep noFaults st g =
      { st with
        store := { st.store with
          mappings := applyWrites (groupWrites g.1 g.2) st.store.mappings },
        stats := { st.stats with
          mappings := st.stats.mappings + (groupWrites g.1 g.2).length } } := by
  have hnb : (get_bot st.store (.str g.1)).isNone = false := by
    cases h : get_bot st.store (.str g.1) with
    | none => rw [h] at hb; simp at hb
    | some r => simp
  simp only [mapGroupStep, hnb, Bool.false_eq_true, if_false, ite_false]
  rw [foldl_mapEntry, foldl_mapEntry, foldl_mapEntry, foldl_mapEntry, foldl_mapEntry,
    subWrites_topics]
  simp only [groupWrites, applyWrites_append, subWrites_length, List.length_append,
    List.length_map, MigState.mk.injEq, Store.mk.injEq, Stats.mk.injEq, true_and,
    and_true]
  omega

theorem foldl_mapGroup (gs : List (String × Json)) : ∀ (st : MigState),
    gs.foldl (mapGroupStep noFaults) st =
      { st with
        store := { st.store with
          mappings := applyWrites (mappingWritesL st.store.bots gs) st.store.mappings },
        stats := { st.stats with
          mappings := st.stats.mappings + (mappingWritesL st.store.bots gs).length,
          errors := st.stats.errors + missingGroupsL st.store.bots gs } } := by
  induction gs with
  | nil => intro st; simp [mappingWritesL, missingGroupsL, applyWrites]
  | cons g t ih =>
    intro st
    rw [List.foldl_cons]
    by_cases hb : (alookup (Json.str g.1) st.store.bots).isSome = true
    · rw [mapGroupStep_present st g hb, ih]
      have hnb : (alookup (Json.str g.1) st.store.bots).isNone = false := by
        cases h : alookup (Json.str g.1) st.store.bots with
        | none => rw [h] at hb; simp at hb
        | some r => simp
      simp only [mappingWritesL, missingGroupsL, List.map_cons, List.flatten_cons,
        List.filter_cons, hb, hnb, Bool.false_eq_true, if_true, if_false, ite_true,
        ite_false, List.length_append, applyWrites_append,
        MigState.mk.injEq, Store.mk.injEq, Stats.mk.injEq, true_and, and_true]
      omega
    · have hbn : (alookup (Json.str g.1) st.store.bots).isNone = true := by
        cases h : alookup (Json.str g.1) st.store.bots with
        | none => simp
        | some r => rw [h] at hb; simp at hb
      rw [mapGroupStep_missing noFaults st g hbn, ih]
      have hx : (alookup (Json.str g.1) st.store.bots).isSome = false := by
        simpa using hb
      simp only [mappingWritesL, missingGroupsL, List.map_cons, List.flatten_cons,
        List.filter_cons, hbn, Bool.not_eq_true, if_true, ite_true, addError, hx,
        Bool.false_eq_true, if_false, ite_false, List.nil_append, List.length_cons,
        MigState.mk.injEq, Store.mk.injEq, Stats.mk.injEq, true_and, and_true]
      omega

theorem migrate_mappings_spec (d : Json) (st : MigState) :
    migrate_mappings noFaults (.parsed d) st =
      { st with
        store := { st.store with
          mappings := applyWrites (mappingWrites st.store.bots d) st.store.mappings },
        stats := { st.stats with
          mappings := st.stats.mappings + (mappingWrites st.store.bots d).length,
          errors := st.stats.errors + missingGroups st.store.bots d } } := by
  have hW : mappingWrites st.store.bots d = mappingWritesL st.store.bots (objItems d) := rfl
  have hM : missingGroups st.store.bots d = missingGroupsL st.store.bots (objItems d) := by
    simp [missingGroups, missingGroupsL]
  simp only [migrate_mappings, load_json_file, hW, hM]
  by_cases hf : d.falsy = true
  · rw [objItems_of_falsy d hf]
    simp [hf, mappingWritesL, missingGroupsL, applyWrites]
  · simp only [Bool.not_eq_true] at hf
    simp only [hf, Bool.false_eq_true, if_false, ite_false]
    exact foldl_mapGroup (objItems d) st

/-! ## Lemmas about `migrate_verified_users` -/

/-- `verifiedGroupStep` and its steps only touch the verified table, the
verified counter and the errors. -/
def VOnly (st st' : MigState) : Prop :=
  st'.store.bots = st.store.bots ∧ st'.store.mappings = st.store.mappings ∧
  st'.store.blacklist = st.store.blacklist ∧ st'.stats.bots = st.stats.bots ∧
  st'.stats.mappings = st.stats.mappings ∧ st'.stats.blacklist = st.stats.blacklist

theorem vOnly_refl {st : MigState} : VOnly st st :=
  ⟨rfl, rfl, rfl, rfl, rfl, rfl⟩

theorem vOnly_trans {a b c : MigState} (h1 : VOnly a b) (h2 : VOnly b c) :
    VOnly a c := by
  obtain ⟨x1, x2, x3, x4, x5, x6⟩ := h1
  obtain ⟨y1, y2, y3, y4, y5, y6⟩ := h2
  exact ⟨y1.trans x1, y2.trans x2, y3.trans x3, y4.trans x4, y5.trans x5, y6.trans x6⟩

/-- The verified table only ever grows (by suffix append). -/
def VExt (s s' : Store) : Prop :=
  ∃ l, s'.verified = s.verified ++ l

theorem vExt_refl {s : Store} : VExt s s := ⟨[], by simp⟩

theorem vExt_trans {a b c : Store} (h1 : VExt a b) (h2 : VExt b c) : VExt a c := by
  obtain ⟨l1, e1⟩ := h1
  obtain ⟨l2, e2⟩ := h2
  exact ⟨l1 ++ l2, by rw [e2, e1, List.append_assoc]⟩

theorem is_verified_of_ext {s s' : Store} (h : VExt s s') (x y : Json)
    (hv : is_verified s x y = true) : is_verified s' x y = true := by
  obtain ⟨l, hl⟩ := h
  simp only [is_verified] at hv ⊢
  rw [hl, List.any_append, hv, Bool.true_or]

theorem verifiedListStep_vOnly (f : Faults) (bu : Json) (a : MigState × Nat)
    (uid : Json) : VOnly a.1 ((verifiedListStep f bu a uid).1) := by
  simp only [verifiedListStep]
  by_cases h1 : f.addVerifiedF bu uid = true <;>
  simp only [add_verified_user, h1, if_true, if_false, ite_true, ite_false,
    Bool.not_eq_true, if_neg, if_pos] <;>
  repeat' split
  all_goals exact ⟨rfl, rfl, rfl, rfl, rfl, rfl⟩

theorem verifiedListStep_vext (f : Faults) (bu : Json) (a : MigState × Nat)
    (uid : Json) : VExt a.1.store ((verifiedListStep f bu a uid).1).store := by
  simp only [verifiedListStep]
  by_cases h1 : f.addVerifiedF bu uid = true <;>
  simp only [add_verified_user, h1, if_true, if_false, ite_true, ite_false,
    Bool.not_eq_true, if_neg, if_pos] <;>
  repeat' split
  all_goals first
    | exact vExt_refl
    | exact ⟨_, rfl⟩

theorem verifiedDictStep_vOnly (f : Faults) (bu : Json) (a : MigState × Nat)
    (e : String × Json) : VOnly a.1 ((verifiedDictStep f bu a e).1) := by
  simp only [verifiedDictStep]
  cases hso : strToInt e.1 with
  | none => exact ⟨rfl, rfl, rfl, rfl, rfl, rfl⟩
  | some n =>
    by_cases h1 : f.addVerifiedF bu (.num n) = true <;>
    simp only [add_verified_user, h1, if_true, if_false, ite_true, ite_false,
      Bool.not_eq_true, if_neg, if_pos] <;>
    repeat' split
    all_goals exact ⟨rfl, rfl, rfl, rfl, rfl, rfl⟩

theorem verifiedDictStep_vext (f : Faults) (bu : Json) (a : MigState × Nat)
    (e : String × Json) : VExt a.1.store ((verifiedDictStep f bu a e).1).store := by
  simp only [verifiedDictStep]
  cases hso : strToInt e.1 with
  | none => exact vExt_refl
  | some n =>
    by_cases h1 : f.addVerifiedF bu (.num n) = true <;>
    simp only [add_verified_user, h1, if_true, if_false, ite_true, ite_false,
      Bool.not_eq_true, if_neg, if_pos] <;>
    repeat' split
    all_goals first
      | exact vExt_refl
      | exact ⟨_, rfl⟩

theorem verifiedListStep_post (bu : Json) (a : MigState × Nat) (uid : Json) :
    is_verified ((verifiedListStep noFaults bu a uid).1).store bu uid = true := by
  simp only [verifiedListStep]
  split
  · next h => exact h
  · simp [add_verified_user, noFaults, is_verified, List.any_append]

theorem verifiedDictStep_post (bu : Json) (a : MigState × Nat) (e : String × Json)
    (n : Int) (fields : List (String × Json)) (hso : strToInt e.1 = some n)
    (he : e.2 = .obj fields) :
    is_verified ((verifiedDictStep noFaults bu a e).1).store bu (.num n) = true := by
  simp only [verifiedDictStep, hso, he]
  split
  · next h => exact h
  · simp [add_verified_user, noFaults, is_verified, List.any_append]

theorem verifiedListStep_skip (f : Faults) (bu : Json) (a : MigState × Nat) (uid : Json)
    (h : is_verified a.1.store bu uid = true) : verifiedListStep f bu a uid = a := by
  simp [verifiedListStep, h]

theorem verifiedDictStep_fixed (bu : Json) (a : MigState × Nat) (e : String × Json)
    (h : ∀ (n : Int) (fields : List (String × Json)), strToInt e.1 = some n →
      e.2 = .obj fields → is_verified a.1.store bu (.num n) = true) :
    verifiedDictStep noFaults bu a e = a ∨
    verifiedDictStep noFaults bu a e = (addError a.1, a.2) := by
  cases hso : strToInt e.1 with
  | none =>
    right
    simp [verifiedDictStep, hso]
  | some n =>
    cases he : e.2 with
    | obj fields =>
      left
      simp [verifiedDictStep, hso, he, h n fields hso he]
    | null => right; simp [verifiedDictStep, hso, he]
    | bool b => right; simp [verifiedDictStep, hso, he]
    | num m => right; simp [verifiedDictStep, hso, he]
    | str s => right; simp [verifiedDictStep, hso, he]
    | arr l => right; simp [verifiedDictStep, hso, he]

theorem foldl_reach_inv {α β : Type} (I : α → Prop) (Q : β → α → Prop)
    (step : α → β → α) (hI : ∀ a x, I a → I (step a x))
    (hstep : ∀ a x, I a → Q x (step a x))
    (hmono : ∀ a x y, Q y a → Q y (step a x)) :
    ∀ (l : List β) (a : α), I a → ∀ x ∈ l, Q x (l.foldl step a) := by
  intro l
  induction l with
  | nil => intro a _ x hx; simp at hx
  | cons z t ih =>
    intro a ha x hx
    rcases List.mem_cons.mp hx with h | h
    · subst h
      simp only [List.foldl_cons]
      exact foldl_invariant_mem (Q x) step t (fun a y _ => hmono a y x) _ (hstep a x ha)
    · exact ih (step a z) (hI a z ha) x h

theorem verifiedGroupStep_missing (f : Faults) (st : MigState) (g : String × Json)
    (hb : (get_bot st.store (.str g.1)).isNone = true) :
    verifiedGroupStep f st g = addError st := by
  simp [verifiedGroupStep, hb]

theorem verifiedGroupStep_vOnly (f : Faults) (st : MigState) (g : String × Json) :
    VOnly st (verifiedGroupStep f st g) := by
  simp only [verifiedGroupStep]
  split
  · exact ⟨rfl, rfl, rfl, rfl, rfl, rfl⟩
  · split
    · next l hg =>
      have h : VOnly st ((l.foldl (verifiedListStep f (Json.str g.1))
          ((st, 0) : MigState × Nat)).1) :=
        foldl_invariant_mem (fun x : MigState × Nat => VOnly st x.1) _ l
          (fun x u _ hx => vOnly_trans hx (verifiedListStep_vOnly f _ x u)) (st, 0) vOnly_refl
      exact vOnly_trans h ⟨rfl, rfl, rfl, rfl, rfl, rfl⟩
    · next kvs hg =>
      have h : VOnly st ((kvs.foldl (verifiedDictStep f (Json.str g.1))
          ((st, 0) : MigState × Nat)).1) :=
        foldl_invariant_mem (fun x : MigState × Nat => VOnly st x.1) _ kvs
          (fun x e _ hx => vOnly_trans hx (verifiedDictStep_vOnly f _ x e)) (st, 0) vOnly_refl
      exact vOnly_trans h ⟨rfl, rfl, rfl, rfl, rfl, rfl⟩
    · exact ⟨rfl, rfl, rfl, rfl, rfl, rfl⟩

theorem verifiedGroupStep_vext (f : Faults) (st : MigState) (g : String × Json) :
    VExt st.store (verifiedGroupStep f st g).store := by
  simp only [verifiedGroupStep]
  split
  · exact vExt_refl
  · split
    · next l hg =>
      have h : VExt st.store ((l.foldl (verifiedListStep f (Json.str g.1))
          ((st, 0) : MigState × Nat)).1).store :=
        foldl_invariant_mem (fun x : MigState × Nat => VExt st.store x.1.store) _ l
          (fun x u _ hx => vExt_trans hx (verifiedListStep_vext f _ x u)) (st, 0) vExt_refl
      exact h
    · next kvs hg =>
      have h : VExt st.store ((kvs.foldl (verifiedDictStep f (Json.str g.1))
          ((st, 0) : MigState × Nat)).1).store :=
        foldl_invariant_mem (fun x : MigState × Nat => VExt st.store x.1.store) _ kvs
          (fun x e _ hx => vExt_trans hx (verifiedDictStep_vext f _ x e)) (st, 0) vExt_refl
      exact h
    · exact vExt_refl

theorem verifiedGroupStep_post (st : MigState) (g : String × Json)
    (hb : (get_bot st.store (.str g.1)).isNone = false) :
    ∀ k ∈ vGroupKeys g,
      is_verified (verifiedGroupStep noFaults st g).store k.1 k.2 = true := by
  intro k hk
  simp only [verifiedGroupStep, hb, Bool.false_eq_true, if_false, ite_false]
  rcases hg : g.2 with _ | b | m | s | l | kvs <;>
    simp only [vGroupKeys, hg] at hk
  · simp at hk
  · simp at hk
  · simp at hk
  · simp at hk
  · rw [List.mem_map] at hk
    obtain ⟨u, hu, hk'⟩ := hk
    subst hk'
    exact foldl_reach
      (fun (u : Json) (a : MigState × Nat) =>
        is_verified a.1.store (Json.str g.1) u = true)
      (verifiedListStep noFaults (Json.str g.1))
      (fun a x => verifiedListStep_post (Json.str g.1) a x)
      (fun a x y hq =>
        is_verified_of_ext (verifiedListStep_vext noFaults (Json.str g.1) a x) _ _ hq)
      l (st, 0) u hu
  · rw [List.mem_filterMap] at hk
    obtain ⟨e, he, hfm⟩ := hk
    have hmain := foldl_reach
      (fun (e : String × Json) (a : MigState × Nat) =>
        ∀ (n : Int) (fields : List (String × Json)), strToInt e.1 = some n →
          e.2 = .obj fields → is_verified a.1.store (Json.str g.1) (.num n) = true)
      (verifiedDictStep noFaults (Json.str g.1))
      (fun a x n fields hso hob => verifiedDictStep_post (Json.str g.1) a x n fields hso hob)
      (fun a x y hq n fields hso hob =>
        is_verified_of_ext (verifiedDictStep_vext noFaults (Json.str g.1) a x) _ _
          (hq n fields hso hob))
      kvs (st, 0) e he
    cases hso : strToInt e.1 with
    | none => rw [hso] at hfm; simp at hfm
    | some n =>
      rw [hso] at hfm
      cases hob : e.2 with
      | obj fields =>
        rw [hob] at hfm
        simp only [Option.some.injEq] at hfm
        subst hfm
        exact hmain n fields hso hob
      | null => rw [hob] at hfm; simp at hfm
      | bool b => rw [hob] at hfm; simp at hfm
      | num m => rw [hob] at hfm; simp at hfm
      | str s => rw [hob] at hfm; simp at hfm
      | arr l => rw [hob] at hfm; simp at hfm

theorem verifiedGroupStep_fixed (st : MigState) (g : String × Json)
    (hb : (get_bot st.store (.str g.1)).isNone = false)
    (hkeys : ∀ k ∈ vGroupKeys g, is_verified st.store k.1 k.2 = true) :
    (verifiedGroupStep noFaults st g).store = st.store ∧
    (verifiedGroupStep noFaults st g).stats.verified_users =
      st.stats.verified_users := by
  simp only [verifiedGroupStep, hb, Bool.false_eq_true, if_false, ite_false]
  rcases hg : g.2 with _ | b | m | s | l | kvs <;>
    simp only [vGroupKeys, hg] at hkeys
  · exact ⟨rfl, rfl⟩
  · exact ⟨rfl, rfl⟩
  · exact ⟨rfl, rfl⟩
  · exact ⟨rfl, rfl⟩
  · have hfold : l.foldl (verifiedListStep noFaults (Json.str g.1))
        ((st, 0) : MigState × Nat) = (st, 0) := by
      refine foldl_invariant_mem (fun a : MigState × Nat => a = (st, 0)) _ l ?_ _ rfl
      intro a u hu ha
      subst ha
      exact verifiedListStep_skip noFaults (Json.str g.1) (st, 0) u
        (hkeys (Json.str g.1, u) (List.mem_map_of_mem _ hu))
    simp [hfold]
  · have hfold : ∀ a : MigState × Nat,
        a.1.store = st.store ∧ a.1.stats.verified_users = st.stats.verified_users ∧
          a.2 = 0 →
        (kvs.foldl (verifiedDictStep noFaults (Json.str g.1)) a).1.store = st.store ∧
        (kvs.foldl (verifiedDictStep noFaults (Json.str g.1)) a).1.stats.verified_users
            = st.stats.verified_users ∧
        (kvs.foldl (verifiedDictStep noFaults (Json.str g.1)) a).2 = 0 := by
      intro a ha
      refine foldl_invariant_mem
        (fun a : MigState × Nat => a.1.store = st.store ∧
          a.1.stats.verified_users = st.stats.verified_users ∧ a.2 = 0) _ kvs ?_ a ha
      intro x e he ⟨hx1, hx2, hx3⟩
      have hent : ∀ (n : Int) (fields : List (String × Json)), strToInt e.1 = some n →
          e.2 = .obj fields → is_verified x.1.store (Json.str g.1) (.num n) = true := by
        intro n fields hso hob
        rw [hx1]
        refine hkeys (Json.str g.1, .num n) ?_
        rw [List.mem_filterMap]
        exact ⟨e, he, by rw [hso, hob]⟩
      rcases verifiedDictStep_fixed (Json.str g.1) x e hent with he' | he'
      · rw [he']; exact ⟨hx1, hx2, hx3⟩
      · rw [he']; exact ⟨hx1, hx2, hx3⟩
    obtain ⟨h1, h2, h3⟩ := hfold (st, 0) ⟨rfl, rfl, rfl⟩
    constructor
    · exact h1
    · simp only [h2, h3, Nat.add_zero]

theorem isNone_eq_false_of_isSome {α : Type} {o : Option α}
    (h : o.isSome = true) : o.isNone = false := by
  cases o <;> simp_all

theorem isNone_eq_true_of_not_isSome {α : Type} {o : Option α}
    (h : ¬o.isSome = true) : o.isNone = true := by
  cases o <;> simp_all

theorem vKeys_intro (bots : List (Json × BotRow)) (d : Json) (g : String × Json)
    (hg : g ∈ objItems d) (hgate : (alookup (Json.str g.1) bots).isSome = true)
    (k : Json × Json) (hk : k ∈ vGroupKeys g) : k ∈ vKeys bots d := by
  simp only [vKeys, List.mem_flatten, List.mem_map]
  exact ⟨vGroupKeys g, ⟨g, hg, by rw [if_pos hgate]⟩, hk⟩

theorem vKeys_elim (bots : List (Json × BotRow)) (d : Json) (k : Json × Json)
    (hk : k ∈ vKeys bots d) :
    ∃ g ∈ objItems d, (alookup (Json.str g.1) bots).isSome = true ∧
      k ∈ vGroupKeys g := by
  simp only [vKeys, List.mem_flatten, List.mem_map] at hk
  obtain ⟨lks, ⟨g, hg, hlks⟩, hkin⟩ := hk
  by_cases hgate : (alookup (Json.str g.1) bots).isSome = true
  · rw [if_pos hgate] at hlks
    exact ⟨g, hg, hgate, hlks ▸ hkin⟩
  · rw [if_neg hgate] at hlks
    rw [← hlks] at hkin
    simp at hkin

theorem migrate_verified_vOnly (f : Faults) (fs : FileState) (st : MigState) :
    VOnly st (migrate_verified_users f fs st) := by
  cases fs with
  | absent => exact vOnly_refl
  | invalid => exact ⟨rfl, rfl, rfl, rfl, rfl, rfl⟩
  | parsed d =>
    simp only [migrate_verified_users, load_json_file]
    by_cases hf : d.falsy = true
    · simp only [hf, if_true, ite_true]
      exact vOnly_refl
    · simp only [hf, Bool.false_eq_true, if_false, ite_false]
      exact foldl_invariant_mem (VOnly st) (verifiedGroupStep f) _
        (fun a g _ h => vOnly_trans h (verifiedGroupStep_vOnly f a g)) st vOnly_refl

theorem migrate_verified_vext (f : Faults) (fs : FileState) (st : MigState) :
    VExt st.store (migrate_verified_users f fs st).store := by
  cases fs with
  | absent => exact vExt_refl
  | invalid => exact vExt_refl
  | parsed d =>
    simp only [migrate_verified_users, load_json_file]
    by_cases hf : d.falsy = true
    · simp only [hf, if_true, ite_true]
      exact vExt_refl
    · simp only [hf, Bool.false_eq_true, if_false, ite_false]
      exact foldl_invariant_mem (fun a => VExt st.store a.store) (verifiedGroupStep f) _
        (fun a g _ h => vExt_trans h (verifiedGroupStep_vext f a g)) st vExt_refl

theorem migrate_verified_post (d : Json) (st : MigState) :
    ∀ k ∈ vKeys st.store.bots d,
      is_verified (migrate_verified_users noFaults (.parsed d) st).store k.1 k.2
        = true := by
  intro k hk
  simp only [migrate_verified_users, load_json_file]
  by_cases hf : d.falsy = true
  · exfalso
    simp [vKeys, objItems_of_falsy d hf] at hk
  · simp only [hf, Bool.false_eq_true, if_false, ite_false]
    obtain ⟨g, hg, hgate, hkg⟩ := vKeys_elim st.store.bots d k hk
    refine foldl_reach_inv
      (fun a : MigState => a.store.bots = st.store.bots)
      (fun (g : String × Json) (a : MigState) =>
        (alookup (Json.str g.1) st.store.bots).isSome = true →
          ∀ k ∈ vGroupKeys g, is_verified a.store k.1 k.2 = true)
      (verifiedGroupStep noFaults)
      (fun a g ha => ((verifiedGroupStep_vOnly noFaults a g).1).trans ha)
      ?_ ?_ (objItems d) st rfl g hg hgate k hkg
    · intro a g ha hgate' k' hk'
      refine verifiedGroupStep_post a g ?_ k' hk'
      have : (alookup (Json.str g.1) a.store.bots).isSome = true := by
        rw [ha]; exact hgate'
      exact isNone_eq_false_of_isSome this
    · intro a g y hq hgate' k' hk'
      exact is_verified_of_ext (verifiedGroupStep_vext noFaults a g) _ _
        (hq hgate' k' hk')

theorem migrate_verified_fixed (fs : FileState) (st : MigState)
    (hk : ∀ d, fs = .parsed d →
      ∀ k ∈ vKeys st.store.bots d, is_verified st.store k.1 k.2 = true) :
    (migrate_verified_users noFaults fs st).store = st.store ∧
    (migrate_verified_users noFaults fs st).stats.verified_users =
      st.stats.verified_users := by
  cases fs with
  | absent => exact ⟨rfl, rfl⟩
  | invalid => exact ⟨rfl, rfl⟩
  | parsed d =>
    simp only [migrate_verified_users, load_json_file]
    by_cases hf : d.falsy = true
    · simp [hf]
    · simp only [hf, Bool.false_eq_true, if_false, ite_false]
      refine foldl_invariant_mem
        (fun a : MigState => a.store = st.store ∧
          a.stats.verified_users = st.stats.verified_users)
        (verifiedGroupStep noFaults) _ ?_ st ⟨rfl, rfl⟩
      intro a g hg ⟨ha1, ha2⟩
      by_cases hgate : (alookup (Json.str g.1) st.store.bots).isSome = true
      · have hb : (get_bot a.store (.str g.1)).isNone = false := by
          rw [get_bot, ha1]
          exact isNone_eq_false_of_isSome hgate
        obtain ⟨hs, hc⟩ := verifiedGroupStep_fixed a g hb
          (fun k' hk' => by
            rw [ha1]
            exact hk d rfl k' (vKeys_intro st.store.bots d g hg hgate k' hk'))
        exact ⟨hs.trans ha1, hc.trans ha2⟩
      · have hb : (get_bot a.store (.str g.1)).isNone = true := by
          rw [get_bot, ha1]
          exact isNone_eq_true_of_not_isSome hgate
        rw [verifiedGroupStep_missing noFaults a g hb]
        exact ⟨ha1, ha2⟩

/-! ## Lemmas about `migrate_blacklist` -/

/-- `blacklistGroupStep` and its steps only touch the blacklist table, the
blacklist counter and the errors. -/
def BOnly (st st' : MigState) : Prop :=
  st'.store.bots = st.store.bots ∧ st'.store.mappings = st.store.mappings ∧
  st'.store.verified = st.store.verified ∧ st'.stats.bots = st.stats.bots ∧
  st'.stats.mappings = st.stats.mappings ∧
  st'.stats.verified_users = st.stats.verified_users

theorem bOnly_refl {st : MigState} : BOnly st st :=
  ⟨rfl, rfl, rfl, rfl, rfl, rfl⟩

theorem bOnly_trans {a b c : MigState} (h1 : BOnly a b) (h2 : BOnly b c) :
    BOnly a c := by
  obtain ⟨x1, x2, x3, x4, x5, x6⟩ := h1
  obtain ⟨y1, y2, y3, y4, y5, y6⟩ := h2
  exact ⟨y1.trans x1, y2.trans x2, y3.trans x3, y4.trans x4, y5.trans x5, y6.trans x6⟩

/-- The blacklist table only ever grows (by suffix append). -/
def BExt (s s' : Store) : Prop :=
  ∃ l, s'.blacklist = s.blacklist ++ l

theorem bExt_refl {s : Store} : BExt s s := ⟨[], by simp⟩

theorem bExt_trans {a b c : Store} (h1 : BExt a b) (h2 : BExt b c) : BExt a c := by
  obtain ⟨l1, e1⟩ := h1
  obtain ⟨l2, e2⟩ := h2
  exact ⟨l1 ++ l2, by rw [e2, e1, List.append_assoc]⟩

theorem is_blacklisted_of_ext {s s' : Store} (h : BExt s s') (x y : Json)
    (hv : is_blacklisted s x y = true) : is_blacklisted s' x y = true := by
  obtain ⟨l, hl⟩ := h
  simp only [is_blacklisted] at hv ⊢
  rw [hl, List.any_append, hv, Bool.true_or]

theorem blacklistStep_bOnly (f : Faults) (bu : Json) (a : MigState × Nat)
    (uid : Json) : BOnly a.1 ((blacklistStep f bu a uid).1) := by
  simp only [blacklistStep]
  by_cases h1 : f.addBlacklistF bu uid = true <;>
  simp only [add_to_blacklist, h1, if_true, if_false, ite_true, ite_false,
    Bool.not_eq_true, if_neg, if_pos] <;>
  repeat' split
  all_goals exact ⟨rfl, rfl, rfl, rfl, rfl, rfl⟩

theorem blacklistStep_bext (f : Faults) (bu : Json) (a : MigState × Nat)
    (uid : Json) : BExt a.1.store ((blacklistStep f bu a uid).1).store := by
  simp only [blacklistStep]
  by_cases h1 : f.addBlacklistF bu uid = true <;>
  simp only [add_to_blacklist, h1, if_true, if_false, ite_true, ite_false,
    Bool.not_eq_true, if_neg, if_pos] <;>
  repeat' split
  all_goals first
    | exact bExt_refl
    | exact ⟨_, rfl⟩

theorem blacklistStep_post (bu : Json) (a : MigState × Nat) (uid : Json) :
    is_blacklisted ((blacklistStep noFaults bu a uid).1).store bu uid = true := by
  simp only [blacklistStep]
  split
  · next h => exact h
  · simp [add_to_blacklist, noFaults, is_blacklisted, List.any_append]

theorem blacklistStep_skip (f : Faults) (bu : Json) (a : MigState × Nat) (uid : Json)
    (h : is_blacklisted a.1.store bu uid = true) : blacklistStep f bu a uid = a := by
  simp [blacklistStep, h]

theorem blacklistGroupStep_missing (f : Faults) (st : MigState) (g : String × Json)
    (hb : (get_bot st.store (.str g.1)).isNone = true) :
    blacklistGroupStep f st g = addError st := by
  simp [blacklistGroupStep, hb]

theorem blacklistGroupStep_bOnly (f : Faults) (st : MigState) (g : String × Json) :
    BOnly st (blacklistGroupStep f st g) := by
  simp only [blacklistGroupStep]
  split
  · exact ⟨rfl, rfl, rfl, rfl, rfl, rfl⟩
  · have h : BOnly st (((listItems g.2).foldl (blacklistStep f (Json.str g.1))
        ((st, 0) : MigState × Nat)).1) :=
      foldl_invariant_mem (fun x : MigState × Nat => BOnly st x.1) _ _
        (fun x u _ hx => bOnly_trans hx (blacklistStep_bOnly f _ x u)) (st, 0) bOnly_refl
    exact bOnly_trans h ⟨rfl, rfl, rfl, rfl, rfl, rfl⟩

theorem blacklistGroupStep_bext (f : Faults) (st : MigState) (g : String × Json) :
    BExt st.store (blacklistGroupStep f st g).store := by
  simp only [blacklistGroupStep]
  split
  · exact bExt_refl
  · exact foldl_invariant_mem (fun x : MigState × Nat => BExt st.store x.1.store) _ _
      (fun x u _ hx => bExt_trans hx (blacklistStep_bext f _ x u)) (st, 0) bExt_refl

theorem blacklistGroupStep_post (st : MigState) (g : String × Json)
    (hb : (get_bot st.store (.str g.1)).isNone = false) :
    ∀ u ∈ listItems g.2,
      is_blacklisted (blacklistGroupStep noFaults st g).store (Json.str g.1) u
        = true := by
  intro u hu
  simp only [blacklistGroupStep, hb, Bool.false_eq_true, if_false, ite_false]
  exact foldl_reach
    (fun (u : Json) (a : MigState × Nat) =>
      is_blacklisted a.1.store (Json.str g.1) u = true)
    (blacklistStep noFaults (Json.str g.1))
    (fun a x => blacklistStep_post (Json.str g.1) a x)
    (fun a x y hq =>
      is_blacklisted_of_ext (blacklistStep_bext noFaults (Json.str g.1) a x) _ _ hq)
    (listItems g.2) (st, 0) u hu

theorem blacklistGroupStep_fixed (st : MigState) (g : String × Json)
    (hb : (get_bot st.store (.str g.1)).isNone = false)
    (hkeys : ∀ u ∈ listItems g.2, is_blacklisted st.store (Json.str g.1) u = true) :
    blacklistGroupStep noFaults st g = st := by
  simp only [blacklistGroupStep, hb, Bool.false_eq_true, if_false, ite_false]
  have hfold : (listItems g.2).foldl (blacklistStep noFaults (Json.str g.1))
      ((st, 0) : MigState × Nat) = (st, 0) := by
    refine foldl_invariant_mem (fun a : MigState × Nat => a = (st, 0)) _ _ ?_ _ rfl
    intro a u hu ha
    subst ha
    exact blacklistStep_skip noFaults (Json.str g.1) (st, 0) u (hkeys u hu)
  simp [hfold]

theorem bKeys_intro (bots : List (Json × BotRow)) (d : Json) (g : String × Json)
    (hg : g ∈ objItems d) (hgate : (alookup (Json.str g.1) bots).isSome = true)
    (u : Json) (hu : u ∈ listItems g.2) : (Json.str g.1, u) ∈ bKeys bots d := by
  simp only [bKeys, List.mem_flatten, List.mem_map]
  refine ⟨(listItems g.2).map fun u => (Json.str g.1, u), ⟨g, hg, by rw [if_pos hgate]⟩, ?_⟩
  exact List.mem_map_of_mem _ hu

theorem bKeys_elim (bots : List (Json × BotRow)) (d : Json) (k : Json × Json)
    (hk : k ∈ bKeys bots d) :
    ∃ g ∈ objItems d, (alookup (Json.str g.1) bots).isSome = true ∧
      ∃ u ∈ listItems g.2, k = (Json.str g.1, u) := by
  simp only [bKeys, List.mem_flatten, List.mem_map] at hk
  obtain ⟨lks, ⟨g, hg, hlks⟩, hkin⟩ := hk
  by_cases hgate : (alookup (Json.str g.1) bots).isSome = true
  · rw [if_pos hgate] at hlks
    rw [← hlks] at hkin
    rw [List.mem_map] at hkin
    obtain ⟨u, hu, hk'⟩ := hkin
    exact ⟨g, hg, hgate, u, hu, hk'.symm⟩
  · rw [if_neg hgate] at hlks
    rw [← hlks] at hkin
    simp at hkin

theorem migrate_blacklist_bOnly (f : Faults) (fs : FileState) (st : MigState) :
    BOnly st (migrate_blacklist f fs st) := by
  cases fs with
  | absent => exact bOnly_refl
  | invalid => exact ⟨rfl, rfl, rfl, rfl, rfl, rfl⟩
  | parsed d =>
    simp only [migrate_blacklist, load_json_file]
    by_cases hf : d.falsy = true
    · simp only [hf, if_true, ite_true]
      exact bOnly_refl
    · simp only [hf, Bool.false_eq_true, if_false, ite_false]
      exact foldl_invariant_mem (BOnly st) (blacklistGroupStep f) _
        (fun a g _ h => bOnly_trans h (blacklistGroupStep_bOnly f a g)) st bOnly_refl

theorem migrate_blacklist_post (d : Json) (st : MigState) :
    ∀ k ∈ bKeys st.store.bots d,
      is_blacklisted (migrate_blacklist noFaults (.parsed d) st).store k.1 k.2
        = true := by
  intro k hk
  simp only [migrate_blacklist, load_json_file]
  by_cases hf : d.falsy = true
  · exfalso
    simp [bKeys, objItems_of_falsy d hf] at hk
  · simp only [hf, Bool.false_eq_true, if_false, ite_false]
    obtain ⟨g, hg, hgate, u, hu, hk'⟩ := bKeys_elim st.store.bots d k hk
    subst hk'
    refine foldl_reach_inv
      (fun a : MigState => a.store.bots = st.store.bots)
      (fun (g : String × Json) (a : MigState) =>
        (alookup (Json.str g.1) st.store.bots).isSome = true →
          ∀ u ∈ listItems g.2, is_blacklisted a.store (Json.str g.1) u = true)
      (blacklistGroupStep noFaults)
      (fun a g ha => ((blacklistGroupStep_bOnly noFaults a g).1).trans ha)
      ?_ ?_ (objItems d) st rfl g hg hgate u hu
    · intro a g ha hgate' u' hu'
      refine blacklistGroupStep_post a g ?_ u' hu'
      have : (alookup (Json.str g.1) a.store.bots).isSome = true := by
        rw [ha]; exact hgate'
      exact isNone_eq_false_of_isSome this
    · intro a g y hq hgate' u' hu'
      exact is_blacklisted_of_ext (blacklistGroupStep_bext noFaults a g) _ _
        (hq hgate' u' hu')

theorem migrate_blacklist_fixed (fs : FileState) (st : MigState)
    (hk : ∀ d, fs = .parsed d →
      ∀ k ∈ bKeys st.store.bots d, is_blacklisted st.store k.1 k.2 = true) :
    (migrate_blacklist noFaults fs st).store = st.store ∧
    (migrate_blacklist noFaults fs st).stats.blacklist = st.stats.blacklist := by
  cases fs with
  | absent => exact ⟨rfl, rfl⟩
  | invalid => exact ⟨rfl, rfl⟩
  | parsed d =>
    simp only [migrate_blacklist, load_json_file]
    by_cases hf : d.falsy = true
    · simp [hf]
    · simp only [hf, Bool.false_eq_true, if_false, ite_false]
      refine foldl_invariant_mem
        (fun a : MigState => a.store = st.store ∧
          a.stats.blacklist = st.stats.blacklist)
        (blacklistGroupStep noFaults) _ ?_ st ⟨rfl, rfl⟩
      intro a g hg ⟨ha1, ha2⟩
      by_cases hgate : (alookup (Json.str g.1) st.store.bots).isSome = true
      · have hb : (get_bot a.store (.str g.1)).isNone = false := by
          rw [get_bot, ha1]
          exact isNone_eq_false_of_isSome hgate
        rw [blacklistGroupStep_fixed a g hb
          (fun u' hu' => by
            rw [ha1]
            exact hk d rfl (Json.str g.1, u') (bKeys_intro st.store.bots d g hg hgate u' hu'))]
        exact ⟨ha1, ha2⟩
      · have hb : (get_bot a.store (.str g.1)).isNone = true := by
          rw [get_bot, ha1]
          exact isNone_eq_true_of_not_isSome hgate
        rw [blacklistGroupStep_missing noFaults a g hb]
        exact ⟨ha1, ha2⟩

/-! ## Stability of re-applied mapping upserts -/

theorem applyWrites_alookup (W : List (MapKey × String)) (k : MapKey) :
    ∀ m, alookup k (applyWrites W m) =
      (match wLast k W with
       | some v => some v
       | none => alookup k m) := by
  induction W with
  | nil => intro m; simp [applyWrites, wLast]
  | cons kv t ih =>
    intro m
    have hstep : applyWrites (kv :: t) m = applyWrites t (aupsert kv.1 kv.2 m) := rfl
    rw [hstep, ih]
    cases hw : wLast k t with
    | some v => simp [wLast, hw]
    | none =>
      simp only [wLast, hw, alookup_aupsert]
      by_cases h : k = kv.1
      · subst h; simp
      · have h' : ¬kv.1 = k := fun hc => h hc.symm
        rw [if_neg h, if_neg h']

theorem wLast_none_of_not_mem (k : MapKey) (W : List (MapKey × String))
    (h : k ∉ W.map Prod.fst) : wLast k W = none := by
  induction W with
  | nil => rfl
  | cons kv t ih =>
    rw [List.map_cons, List.mem_cons, not_or] at h
    obtain ⟨h1, h2⟩ := h
    simp only [wLast, ih h2]
    rw [if_neg (fun hc => h1 hc.symm)]

theorem wLast_of_nodup (W : List (MapKey × String))
    (hnd : (W.map Prod.fst).Nodup) (kv : MapKey × String) (hm : kv ∈ W) :
    wLast kv.1 W = some kv.2 := by
  induction W with
  | nil => simp at hm
  | cons x t ih =>
    rw [List.map_cons, List.nodup_cons] at hnd
    obtain ⟨hx, hnd'⟩ := hnd
    rcases List.mem_cons.mp hm with h | h
    · subst h
      simp only [wLast, wLast_none_of_not_mem kv.1 t hx]
      simp
    · simp only [wLast, ih hnd' h]

theorem applyWrites_stable (W : List (MapKey × String)) :
    ∀ m, (∀ kv ∈ W, alookup kv.1 m = some kv.2) → applyWrites W m = m := by
  induction W with
  | nil => intro m _; rfl
  | cons kv t ih =>
    intro m h
    have hstep : applyWrites (kv :: t) m = applyWrites t (aupsert kv.1 kv.2 m) := rfl
    rw [hstep, aupsert_eq_self kv.1 kv.2 m (h kv (List.mem_cons_self _ _))]
    exact ih m (fun kv' h' => h kv' (List.mem_cons_of_mem _ h'))

theorem applyWrites_idem (W : List (MapKey × String)) (m : List (MapKey × String))
    (hnd : (W.map Prod.fst).Nodup) :
    applyWrites W (applyWrites W m) = applyWrites W m := by
  refine applyWrites_stable W _ ?_
  intro kv hkv
  rw [applyWrites_alookup, wLast_of_nodup W hnd kv hkv]

theorem gated_flatten_sublist {γ : Type} (P : γ → Prop) [DecidablePred P]
    (f : γ → List (MapKey × String)) (gs : List γ) :
    ((gs.map fun g => if P g then f g else []).flatten).Sublist
      ((gs.map f).flatten) := by
  induction gs with
  | nil => exact List.Sublist.refl _
  | cons g t ih =>
    simp only [List.map_cons, List.flatten_cons]
    by_cases h : P g
    · rw [if_pos h]
      exact List.Sublist.append (List.Sublist.refl _) ih
    · rw [if_neg h]
      simp only [List.nil_append]
      exact ih.trans (List.sublist_append_right _ _)

theorem mappingWrites_keys_nodup (bots : List (Json × BotRow)) (d : Json)
    (hnd : ((allMappingWrites d).map Prod.fst).Nodup) :
    ((mappingWrites bots d).map Prod.fst).Nodup := by
  have hsub : (mappingWrites bots d).Sublist (allMappingWrites d) :=
    gated_flatten_sublist
      (fun g : String × Json => (alookup (Json.str g.1) bots).isSome = true)
      (fun g : String × Json => groupWrites g.1 g.2) (objItems d)
  exact hnd.sublist (hsub.map Prod.fst)

theorem migrate_mappings_frame (fs : FileState) (st : MigState) :
    (migrate_mappings noFaults fs st).store.bots = st.store.bots ∧
    (migrate_mappings noFaults fs st).store.verified = st.store.verified ∧
    (migrate_mappings noFaults fs st).store.blacklist = st.store.blacklist ∧
    (migrate_mappings noFaults fs st).stats.bots = st.stats.bots ∧
    (migrate_mappings noFaults fs st).stats.verified_users = st.stats.verified_users ∧
    (migrate_mappings noFaults fs st).stats.blacklist = st.stats.blacklist := by
  cases fs with
  | absent => exact ⟨rfl, rfl, rfl, rfl, rfl, rfl⟩
  | invalid => exact ⟨rfl, rfl, rfl, rfl, rfl, rfl⟩
  | parsed d =>
    rw [migrate_mappings_spec]
    exact ⟨rfl, rfl, rfl, rfl, rfl, rfl⟩

theorem is_verified_congr {s s' : Store} (h : s.verified = s'.verified) (x y : Json) :
    is_verified s x y = is_verified s' x y := by
  simp [is_verified, h]

theorem is_blacklisted_congr {s s' : Store} (h : s.blacklist = s'.blacklist)
    (x y : Json) : is_blacklisted s x y = is_blacklisted s' x y := by
  simp [is_blacklisted, h]

theorem botsDone_congr {s s' : Store} (h : s.bots = s'.bots) (d : Json)
    (hd : botsDone s d) : botsDone s' d := by
  intro r hr hu ht hp
  rw [← h]
  exact hd r hr hu ht hp

theorem migrateAll_eq (f : Faults) (inp : RunInput) (st : MigState) :
    migrateAll f inp st =
      migrate_blacklist f inp.blacklistFile
        (migrate_verified_users f inp.verifiedFile
          (migrate_mappings f inp.mapFile
            (migrate_bots f inp.botsFile st))) := rfl

theorem migrateAll_idem (inp : RunInput) (st0 : MigState)
    (hnd : ∀ dm, inp.mapFile = .parsed dm →
      ((allMappingWrites dm).map Prod.fst).Nodup) :
    (migrateAll noFaults inp ⟨(migrateAll noFaults inp st0).store, Stats.init⟩).store =
      (migrateAll noFaults inp st0).store ∧
    (migrateAll noFaults inp
      ⟨(migrateAll noFaults inp st0).store, Stats.init⟩).stats.bots = 0 ∧
    (migrateAll noFaults inp
      ⟨(migrateAll noFaults inp st0).store, Stats.init⟩).stats.verified_users = 0 ∧
    (migrateAll noFaults inp
      ⟨(migrateAll noFaults inp st0).store, Stats.init⟩).stats.blacklist = 0 := by
  simp only [migrateAll_eq]
  set sB := migrate_bots noFaults inp.botsFile st0 with hsB
  set sM := migrate_mappings noFaults inp.mapFile sB with hsM
  set sV := migrate_verified_users noFaults inp.verifiedFile sM with hsV
  set r1 := migrate_blacklist noFaults inp.blacklistFile sV with hr1
  set t0 : MigState := ⟨r1.store, Stats.init⟩ with ht0
  set tB := migrate_bots noFaults inp.botsFile t0 with htB
  set tM := migrate_mappings noFaults inp.mapFile tB with htM
  set tV := migrate_verified_users noFaults inp.verifiedFile tM with htV
  set r2 := migrate_blacklist noFaults inp.blacklistFile tV with hr2
  have hKb : r1.store.bots = sV.store.bots := by
    rw [hr1]; exact (migrate_blacklist_bOnly noFaults inp.blacklistFile sV).1
  have hVb : sV.store.bots = sM.store.bots := by
    rw [hsV]; exact (migrate_verified_vOnly noFaults inp.verifiedFile sM).1
  have hMb : sM.store.bots = sB.store.bots := by
    rw [hsM]; exact (migrate_mappings_frame inp.mapFile sB).1
  have hr1b : r1.store.bots = sB.store.bots := by rw [hKb, hVb, hMb]
  have hVm : sV.store.mappings = sM.store.mappings := by
    rw [hsV]; exact (migrate_verified_vOnly noFaults inp.verifiedFile sM).2.1
  have hKm : r1.store.mappings = sV.store.mappings := by
    rw [hr1]; exact (migrate_blacklist_bOnly noFaults inp.blacklistFile sV).2.1
  have hKv : r1.store.verified = sV.store.verified := by
    rw [hr1]; exact (migrate_blacklist_bOnly noFaults inp.blacklistFile sV).2.2.1
  have hBdone : ∀ d, inp.botsFile = .parsed d → botsDone t0.store d := by
    intro d hd
    have hpost : botsDone sB.store d := by
      rw [hsB, hd]
      exact migrate_bots_post d st0
    refine botsDone_congr ?_ d hpost
    rw [ht0]
    exact hr1b.symm
  have hfixB := migrate_bots_fixed inp.botsFile t0 hBdone
  rw [← htB] at hfixB
  obtain ⟨htBs, htBb0⟩ := hfixB
  have htBb : tB.stats.bots = 0 := by rw [htBb0, ht0]; rfl
  have hBO2 : BotsOnly t0 tB := by
    rw [htB]; exact migrate_bots_botsOnly noFaults inp.botsFile t0
  have hM2 : tM.store = tB.store ∧ tM.stats.bots = tB.stats.bots ∧
      tM.stats.verified_users = tB.stats.verified_users ∧
      tM.stats.blacklist = tB.stats.blacklist := by
    cases hmf : inp.mapFile with
    | absent => rw [htM, hmf]; exact ⟨rfl, rfl, rfl, rfl⟩
    | invalid => rw [htM, hmf]; exact ⟨rfl, rfl, rfl, rfl⟩
    | parsed dM =>
      have hrun1 : sM.store.mappings =
          applyWrites (mappingWrites sB.store.bots dM) sB.store.mappings := by
        rw [hsM, hmf, migrate_mappings_spec]
      have htBsb : tB.store.bots = sB.store.bots := by
        rw [htBs, ht0]; exact hr1b
      have htBsm : tB.store.mappings =
          applyWrites (mappingWrites sB.store.bots dM) sB.store.mappings := by
        rw [htBs, ht0, hKm, hVm, hrun1]
      have hstable : applyWrites (mappingWrites tB.store.bots dM) tB.store.mappings
          = tB.store.mappings := by
        rw [htBsb, htBsm]
        exact applyWrites_idem _ _
          (mappingWrites_keys_nodup sB.store.bots dM (hnd dM hmf))
      rw [htM, hmf, migrate_mappings_spec]
      refine ⟨?_, rfl, rfl, rfl⟩
      show ({ tB.store with
        mappings := applyWrites (mappingWrites tB.store.bots dM) tB.store.mappings })
          = tB.store
      rw [hstable]
  have hVk : ∀ d, inp.verifiedFile = .parsed d →
      ∀ k ∈ vKeys tM.store.bots d, is_verified tM.store k.1 k.2 = true := by
    intro d hd k hk
    have htMr1 : tM.store = r1.store := by rw [hM2.1, htBs, ht0]
    rw [htMr1] at hk ⊢
    rw [hr1b, ← hMb] at hk
    have hpost : is_verified sV.store k.1 k.2 = true := by
      rw [hsV, hd]
      exact migrate_verified_post d sM k hk
    rw [is_verified_congr hKv k.1 k.2]
    exact hpost
  have hVfix := migrate_verified_fixed inp.verifiedFile tM hVk
  rw [← htV] at hVfix
  have hVO2 : VOnly tM tV := by
    rw [htV]; exact migrate_verified_vOnly noFaults inp.verifiedFile tM
  have hKk : ∀ d, inp.blacklistFile = .parsed d →
      ∀ k ∈ bKeys tV.store.bots d, is_blacklisted tV.store k.1 k.2 = true := by
    intro d hd k hk
    have htVr1 : tV.store = r1.store := by rw [hVfix.1, hM2.1, htBs, ht0]
    rw [htVr1] at hk ⊢
    rw [hKb] at hk
    rw [hr1, hd]
    exact migrate_blacklist_post d sV k hk
  have hKfix := migrate_blacklist_fixed inp.blacklistFile tV hKk
  rw [← hr2] at hKfix
  have hKO2 : BOnly tV r2 := by
    rw [hr2]; exact migrate_blacklist_bOnly noFaults inp.blacklistFile tV
  refine ⟨?_, ?_, ?_, ?_⟩
  · calc r2.store = tV.store := hKfix.1
      _ = tM.store := hVfix.1
      _ = tB.store := hM2.1
      _ = t0.store := htBs
      _ = r1.store := by rw [ht0]
  · calc r2.stats.bots = tV.stats.bots := hKO2.2.2.2.1
      _ = tM.stats.bots := hVO2.2.2.2.1
      _ = tB.stats.bots := hM2.2.1
      _ = 0 := htBb
  · calc r2.stats.verified_users = tV.stats.verified_users := hKO2.2.2.2.2.2
      _ = tM.stats.verified_users := hVfix.2
      _ = tB.stats.verified_users := hM2.2.2.1
      _ = t0.stats.verified_users := hBO2.2.2.2.2.1
      _ = 0 := by rw [ht0]; rfl
  · calc r2.stats.blacklist = tV.stats.blacklist := hKfix.2
      _ = tM.stats.blacklist := hVO2.2.2.2.2.2
      _ = tB.stats.blacklist := hM2.2.2.2
      _ = t0.stats.blacklist := hBO2.2.2.2.2.2
      _ = 0 := by rw [ht0]; rfl

/-! ## Concrete fixtures used by the claim theorems -/

/-- A stored bot row for `alice_bot` with owner 42, default mode, no forum. -/
def aliceRow : BotRow := ⟨.str "T1", 42, .str "", .str "direct", none⟩

/-- A store that already contains `alice_bot` and nothing else. -/
def aliceStore : Store := { Store.empty with bots := [(.str "alice_bot", aliceRow)] }

/-- `msg_map.json = {"alice_bot": {"direct": {"100": 200}}}`. -/
def mapDocAlice : Json :=
  .obj [("alice_bot", .obj [("direct", .obj [("100", .num 200)])])]

/-- The run inputs for the idempotence scenario: directory present, operator
confirms, only `msg_map.json` present. -/
def runInpAlice : RunInput :=
  ⟨true, "y", .absent, .parsed mapDocAlice, .absent, .absent⟩

/-! ## Claim theorems -/

/-- C8: `load_json_file` yields `None` silently when the file is absent,
records exactly one error (touching nothing else) and yields `None` when the
file exists but fails to parse, and passes a parsed document through; being a
total function of the file state, it propagates no exception. -/
theorem C8_load_json_file_contract : ∀ (st : MigState) (d : Json),
    load_json_file .absent st = (none, st) ∧
    load_json_file .invalid st = (none, addError st) ∧
    (addError st).store = st.store ∧
    (addError st).stats.errors = st.stats.errors + 1 ∧
    (addError st).stats.bots = st.stats.bots ∧
    (addError st).stats.mappings = st.stats.mappings ∧
    (addError st).stats.verified_users = st.stats.verified_users ∧
    (addError st).stats.blacklist = st.stats.blacklist ∧
    load_json_file (.parsed d) st = (some d, st) :=
  fun st d => ⟨rfl, rfl, rfl, rfl, rfl, rfl, rfl, rfl, rfl⟩

/-- C9: for each of the four passes, a present file that parses to a falsy
document (such as `{}`) makes the pass a no-op on the whole state — exactly
as when the file is absent. -/
theorem C9_empty_document_noop : ∀ (f : Faults) (st : MigState) (d : Json),
    d.falsy = true →
    (migrate_bots f (.parsed d) st = st ∧ migrate_bots f .absent st = st) ∧
    (migrate_mappings f (.parsed d) st = st ∧ migrate_mappings f .absent st = st) ∧
    (migrate_verified_users f (.parsed d) st = st ∧
      migrate_verified_users f .absent st = st) ∧
    (migrate_blacklist f (.parsed d) st = st ∧ migrate_blacklist f .absent st = st) := by
  intro f st d h
  refine ⟨⟨?_, rfl⟩, ⟨?_, rfl⟩, ⟨?_, rfl⟩, ⟨?_, rfl⟩⟩ <;>
    simp [migrate_bots, migrate_mappings, migrate_verified_users, migrate_blacklist,
      load_json_file, h]

/-- C9 witness: the empty JSON object `{}` is falsy, and the four passes
leave a concrete state untouched on it. -/
theorem C9_empty_document_noop_witness :
    (migrate_bots noFaults (.parsed (.obj [])) ⟨aliceStore, Stats.init⟩ =
        ⟨aliceStore, Stats.init⟩ ∧
      migrate_bots noFaults .absent ⟨aliceStore, Stats.init⟩ =
        ⟨aliceStore, Stats.init⟩) ∧
    (migrate_mappings noFaults (.parsed (.obj [])) ⟨aliceStore, Stats.init⟩ =
        ⟨aliceStore, Stats.init⟩ ∧
      migrate_mappings noFaults .absent ⟨aliceStore, Stats.init⟩ =
        ⟨aliceStore, Stats.init⟩) ∧
    (migrate_verified_users noFaults (.parsed (.obj [])) ⟨aliceStore, Stats.init⟩ =
        ⟨aliceStore, Stats.init⟩ ∧
      migrate_verified_users noFaults .absent ⟨aliceStore, Stats.init⟩ =
        ⟨aliceStore, Stats.init⟩) ∧
    (migrate_blacklist noFaults (.parsed (.obj [])) ⟨aliceStore, Stats.init⟩ =
        ⟨aliceStore, Stats.init⟩ ∧
      migrate_blacklist noFaults .absent ⟨aliceStore, Stats.init⟩ =
        ⟨aliceStore, Stats.init⟩) :=
  C9_empty_document_noop noFaults ⟨aliceStore, Stats.init⟩ (.obj []) (by decide)

/-- C7: `run` aborts with failure and an untouched state when the source
directory is missing or the confirmation is declined (exit code 1), and a
run that passes both gates performs the four passes and reports success
(exit code 0) regardless of recorded errors. -/
theorem C7_run_gates : ∀ (f : Faults) (inp : RunInput) (st : MigState),
    (inp.dirExists = false →
      run f inp st = (false, st) ∧ exitCode (run f inp st).1 = 1) ∧
    (inp.dirExists = true → confirmAccepted inp.confirm = false →
      run f inp st = (false, st) ∧ exitCode (run f inp st).1 = 1) ∧
    (inp.dirExists = true → confirmAccepted inp.confirm = true →
      (run f inp st).1 = true ∧ (run f inp st).2 = migrateAll f inp st ∧
      exitCode (run f inp st).1 = 0) := by
  intro f inp st
  refine ⟨fun h1 => ?_, fun h1 h2 => ?_, fun h1 h2 => ?_⟩
  · constructor <;> simp [run, exitCode, h1]
  · constructor <;> simp [run, exitCode, h1, h2]
  · refine ⟨?_, ?_, ?_⟩ <;> simp [run, exitCode, h1, h2]

/-- C7 witness: the three gate outcomes at concrete inputs; declining leaves
the concrete store untouched and reports failure, accepting reports success. -/
theorem C7_run_gates_witness :
    (run noFaults ⟨false, "y", .absent, .absent, .absent, .absent⟩
        ⟨aliceStore, Stats.init⟩ = (false, ⟨aliceStore, Stats.init⟩) ∧
      exitCode false = 1) ∧
    (run noFaults ⟨true, "n", .absent, .absent, .absent, .absent⟩
        ⟨aliceStore, Stats.init⟩ = (false, ⟨aliceStore, Stats.init⟩) ∧
      exitCode false = 1) ∧
    ((run noFaults ⟨true, "y", .absent, .absent, .absent, .absent⟩
        ⟨aliceStore, Stats.init⟩).1 = true ∧ exitCode true = 0) := by
  have h1 := (C7_run_gates noFaults ⟨false, "y", .absent, .absent, .absent, .absent⟩
    ⟨aliceStore, Stats.init⟩).1 rfl
  have h2 := (C7_run_gates noFaults ⟨true, "n", .absent, .absent, .absent, .absent⟩
    ⟨aliceStore, Stats.init⟩).2.1 rfl (by decide)
  have h3 := (C7_run_gates noFaults ⟨true, "y", .absent, .absent, .absent, .absent⟩
    ⟨aliceStore, Stats.init⟩).2.2 rfl (by decide)
  exact ⟨⟨h1.1, h1.2⟩, ⟨h2.1, h2.2⟩, h3.1, h3.2.2⟩

/-- C6: a bot record whose `bot_username` or `token` is missing or empty
mutates nothing: the step is exactly one appended error, the store and all
counters are unchanged, and the fold continues with the next record. -/
theorem C6_invalid_bot_record : ∀ (f : Faults) (o : String) (st : MigState) (b : Json),
    ((jsonGet b "bot_username" .null).falsy = true ∨
      (jsonGet b "token" .null).falsy = true) →
    botStep f o st b = addError st ∧
    (addError st).store = st.store ∧
    (addError st).stats.errors = st.stats.errors + 1 ∧
    (addError st).stats.bots = st.stats.bots := by
  intro f o st b h
  exact ⟨by simp [botStep, h], rfl, rfl, rfl⟩

/-- C6 witness: a record with a token but no `bot_username` only logs one
error. -/
theorem C6_invalid_bot_record_witness :
    botStep noFaults "42" ⟨Store.empty, Stats.init⟩ (.obj [("token", .str "T1")]) =
      addError ⟨Store.empty, Stats.init⟩ :=
  (C6_invalid_bot_record noFaults "42" ⟨Store.empty, Stats.init⟩
    (.obj [("token", .str "T1")]) (by decide)).1

/-- C4: in each of the mappings, verified-users and blacklist passes, a group
whose bot handle is absent from the store is handled by exactly one appended
error and nothing else; in particular `blacklist.json = {"ghost_bot": [1,2,3]}`
against a store without `ghost_bot` writes nothing and logs exactly one error. -/
theorem C4_missing_bot_group_skipped :
    (∀ (f : Faults) (st : MigState) (g : String × Json),
      (get_bot st.store (.str g.1)).isNone = true → mapGroupStep f st g = addError st) ∧
    (∀ (f : Faults) (st : MigState) (g : String × Json),
      (get_bot st.store (.str g.1)).isNone = true →
        verifiedGroupStep f st g = addError st) ∧
    (∀ (f : Faults) (st : MigState) (g : String × Json),
      (get_bot st.store (.str g.1)).isNone = true →
        blacklistGroupStep f st g = addError st) ∧
    ((migrate_blacklist noFaults
        (.parsed (.obj [("ghost_bot", .arr [.num 1, .num 2, .num 3])]))
        ⟨aliceStore, Stats.init⟩).store = aliceStore ∧
      (migrate_blacklist noFaults
        (.parsed (.obj [("ghost_bot", .arr [.num 1, .num 2, .num 3])]))
        ⟨aliceStore, Stats.init⟩).stats.blacklist = 0 ∧
      (migrate_blacklist noFaults
        (.parsed (.obj [("ghost_bot", .arr [.num 1, .num 2, .num 3])]))
        ⟨aliceStore, Stats.init⟩).stats.errors = 1) :=
  ⟨mapGroupStep_missing, verifiedGroupStep_missing, blacklistGroupStep_missing,
    rfl, rfl, rfl⟩

/-- C4 witness: the three group steps at a concrete absent handle each reduce
to exactly one appended error. -/
theorem C4_missing_bot_group_skipped_witness :
    mapGroupStep noFaults ⟨Store.empty, Stats.init⟩ ("ghost_bot", .obj []) =
      addError ⟨Store.empty, Stats.init⟩ ∧
    verifiedGroupStep noFaults ⟨Store.empty, Stats.init⟩ ("ghost_bot", .arr []) =
      addError ⟨Store.empty, Stats.init⟩ ∧
    blacklistGroupStep noFaults ⟨Store.empty, Stats.init⟩ ("ghost_bot", .arr []) =
      addError ⟨Store.empty, Stats.init⟩ :=
  ⟨C4_missing_bot_group_skipped.1 noFaults ⟨Store.empty, Stats.init⟩
      ("ghost_bot", .obj []) (by decide),
    C4_missing_bot_group_skipped.2.1 noFaults ⟨Store.empty, Stats.init⟩
      ("ghost_bot", .arr []) (by decide),
    C4_missing_bot_group_skipped.2.2.1 noFaults ⟨Store.empty, Stats.init⟩
      ("ghost_bot", .arr []) (by decide)⟩

/-- C1 counterexample: a sub-mapping keyed by the mapping-kind name `topic`
(rather than the JSON key `topics` the code reads) is silently ignored: with
`alice_bot` present, `{"alice_bot": {"topic": {"1": 2}}}` produces zero
mapping writes and a zero mapping count, refuting that sub-mappings are read
under the five kind names. -/
theorem C1_kind_named_subfield_ignored :
    (migrate_mappings noFaults
      (.parsed (.obj [("alice_bot", .obj [("topic", .obj [("1", .num 2)])])]))
      ⟨aliceStore, Stats.init⟩).store.mappings = [] ∧
    (migrate_mappings noFaults
      (.parsed (.obj [("alice_bot", .obj [("topic", .obj [("1", .num 2)])])]))
      ⟨aliceStore, Stats.init⟩).stats.mappings = 0 := by
  constructor <;> rfl

/-- C1 (amended): `migrate_mappings` performs, for every group whose bot
exists, exactly the upserts described by `groupWrites` — every entry of the
sub-mappings read from the JSON keys `direct`, `topics`, `user_to_forward`,
`forward_to_user`, `owner_to_user`, written as the kinds `direct`, `topic`,
`user_forward`, `forward_user`, `owner_user`, with the target coerced to a
string — counting one per write and logging one error per missing-bot group;
in particular `{"alice_bot": {"direct": {"100": 200}}}` with `alice_bot`
present yields the direct mapping `"100" → "200"` and a mapping count of 1. -/
theorem C1_mapping_migration_amended :
    (∀ (d : Json) (st : MigState),
      migrate_mappings noFaults (.parsed d) st =
        { st with
          store := { st.store with
            mappings := applyWrites (mappingWrites st.store.bots d)
              st.store.mappings },
          stats := { st.stats with
            mappings := st.stats.mappings + (mappingWrites st.store.bots d).length,
            errors := st.stats.errors + missingGroups st.store.bots d } }) ∧
    (migrate_mappings noFaults (.parsed mapDocAlice)
      ⟨aliceStore, Stats.init⟩).store.mappings =
        [((.str "alice_bot", "direct", "100"), "200")] ∧
    (migrate_mappings noFaults (.parsed mapDocAlice)
      ⟨aliceStore, Stats.init⟩).stats.mappings = 1 :=
  ⟨migrate_mappings_spec, rfl, rfl⟩

/-- C2 counterexample: with `alice_bot` present and
`msg_map.json = {"alice_bot": {"direct": {"100": 200}}}`, the second run of
the full migration re-performs and re-counts the mapping upsert: its mapping
counter is 1, not 0, even though the store is unchanged. -/
theorem C2_second_run_counts_mappings :
    (migrateAll noFaults runInpAlice
      ⟨(migrateAll noFaults runInpAlice ⟨aliceStore, Stats.init⟩).store,
        Stats.init⟩).stats.mappings = 1 ∧
    (migrateAll noFaults runInpAlice
      ⟨(migrateAll noFaults runInpAlice ⟨aliceStore, Stats.init⟩).store,
        Stats.init⟩).store =
      (migrateAll noFaults runInpAlice ⟨aliceStore, Stats.init⟩).store := by
  constructor <;> rfl

/-- C2 (amended): running the full migration twice against the same inputs
and initial store leaves the store identical after the second run, and the
bot, verified-user and blacklist counters of the second run are zero; the
mapping counter is the exception (mapping writes are unconditional upserts,
re-performed and re-counted — see the counterexample), provided the msg-map
document assigns each (bot, kind, source) key at most once, as a JSON
document does. -/
theorem C2_idempotent_amended (inp : RunInput) (st0 : MigState)
    (hnd : ∀ dm, inp.mapFile = .parsed dm →
      ((allMappingWrites dm).map Prod.fst).Nodup) :
    (migrateAll noFaults inp
      ⟨(migrateAll noFaults inp st0).store, Stats.init⟩).store =
      (migrateAll noFaults inp st0).store ∧
    (migrateAll noFaults inp
      ⟨(migrateAll noFaults inp st0).store, Stats.init⟩).stats.bots = 0 ∧
    (migrateAll noFaults inp
      ⟨(migrateAll noFaults inp st0).store, Stats.init⟩).stats.verified_users = 0 ∧
    (migrateAll noFaults inp
      ⟨(migrateAll noFaults inp st0).store, Stats.init⟩).stats.blacklist = 0 :=
  migrateAll_idem inp st0 hnd

/-- C2 witness: the amended idempotence at the concrete alice scenario. -/
theorem C2_idempotent_amended_witness :
    (migrateAll noFaults runInpAlice
      ⟨(migrateAll noFaults runInpAlice ⟨aliceStore, Stats.init⟩).store,
        Stats.init⟩).store =
      (migrateAll noFaults runInpAlice ⟨aliceStore, Stats.init⟩).store ∧
    (migrateAll noFaults runInpAlice
      ⟨(migrateAll noFaults runInpAlice ⟨aliceStore, Stats.init⟩).store,
        Stats.init⟩).stats.bots = 0 ∧
    (migrateAll noFaults runInpAlice
      ⟨(migrateAll noFaults runInpAlice ⟨aliceStore, Stats.init⟩).store,
        Stats.init⟩).stats.verified_users = 0 ∧
    (migrateAll noFaults runInpAlice
      ⟨(migrateAll noFaults runInpAlice ⟨aliceStore, Stats.init⟩).store,
        Stats.init⟩).stats.blacklist = 0 :=
  C2_idempotent_amended runInpAlice ⟨aliceStore, Stats.init⟩
    (fun dm h => by
      injection h with h
      rw [← h]
      decide)

/-- C3 counterexample: with `alice_bot` present, the list shape
`{"alice_bot": ["5"]}` inserts the raw id `"5"` without integer coercion,
while the dict shape `{"alice_bot": {"5": {}}}` inserts the integer `5`: the
two shapes do not produce equivalent rows, refuting that both shapes coerce
the id to an integer. -/
theorem C3_list_shape_not_coerced :
    (migrate_verified_users noFaults
      (.parsed (.obj [("alice_bot", .arr [.str "5"])]))
      ⟨aliceStore, Stats.init⟩).store.verified =
        [⟨.str "alice_bot", .str "5", .str "", .str ""⟩] ∧
    (migrate_verified_users noFaults
      (.parsed (.obj [("alice_bot", .obj [("5", .obj [])])]))
      ⟨aliceStore, Stats.init⟩).store.verified =
        [⟨.str "alice_bot", .num 5, .str "", .str ""⟩] ∧
    Json.str "5" ≠ Json.num 5 := by
  refine ⟨rfl, rfl, by decide⟩

theorem botStep_success_char (o : String) (st : MigState) (b : Json) (n : Int)
    (hu : (jsonGet b "bot_username" .null).falsy = false)
    (ht : (jsonGet b "token" .null).falsy = false)
    (habs : alookup (jsonGet b "bot_username" .null) st.store.bots = none)
    (hn : strToInt o = some n) :
    botStep noFaults o st b =
      { st with
        store := { st.store with bots := st.store.bots ++
          [(jsonGet b "bot_username" .null,
            ⟨jsonGet b "token" .null, n, jsonGet b "welcome_msg" (.str ""),
             (if (jsonGet b "mode" (.str "direct")).falsy = true ∨
                 jsonGet b "mode" (.str "direct") = Json.str "direct"
              then Json.str "direct" else jsonGet b "mode" (.str "direct")),
             (if (jsonGet b "forum_group_id" .null).falsy = true then none
              else some (jsonGet b "forum_group_id" .null))⟩)] },
        stats := { st.stats with bots := st.stats.bots + 1 } } := by
  have hns : (get_bot st.store (jsonGet b "bot_username" .null)).isSome = false := by
    simp [get_bot, habs]
  by_cases cm : ((jsonGet b "mode" (.str "direct")).falsy = true ∨
      jsonGet b "mode" (.str "direct") = Json.str "direct") <;>
  by_cases cf : (jsonGet b "forum_group_id" .null).falsy = true <;>
  simp only [botStep, botForumStep, add_bot, update_bot_mode, update_bot_forum_id,
    noFaults, bumpBot, hu, ht, hn, hns, cm, cf, Bool.false_eq_true, or_self, if_false,
    if_true, ite_false, ite_true, or_false, false_or, not_false_eq_true,
    not_true_eq_false, iff_false, iff_true]
  all_goals try rw [amodify_append_of_absent _ _ _ _ habs]
  all_goals try rw [amodify_append_of_absent _ _ _ _ habs]

theorem botStep_counter (f : Faults) (o : String) (st : MigState) (b : Json) :
    ((botStep f o st b).stats.bots = st.stats.bots + 1 ∧
      (botStep f o st b).stats.errors = st.stats.errors) ∨
    ((botStep f o st b).stats.bots = st.stats.bots ∧
      ((botStep f o st b).stats.errors = st.stats.errors ∨
        (botStep f o st b).stats.errors = st.stats.errors + 1)) := by
  simp only [botStep, botForumStep]
  by_cases h1 : f.addBotF (jsonGet b "bot_username" .null) = true <;>
  by_cases h2 : f.updModeF (jsonGet b "bot_username" .null) = true <;>
  by_cases h3 : f.updForumF (jsonGet b "bot_username" .null) = true <;>
  simp only [add_bot, update_bot_mode, update_bot_forum_id, h1, h2, h3, if_true,
    if_false, ite_true, ite_false, Bool.not_eq_true, if_neg, if_pos] <;>
  repeat' split
  all_goals first
    | exact Or.inl ⟨rfl, rfl⟩
    | exact Or.inr ⟨rfl, Or.inl rfl⟩
    | exact Or.inr ⟨rfl, Or.inr rfl⟩

/-- `bots.json = {"42": {"bots": [{"bot_username": "alice_bot", "token": "T1"}]}}`. -/
def botsDocAlice : Json :=
  .obj [("42", .obj [("bots",
    .arr [.obj [("bot_username", .str "alice_bot"), ("token", .str "T1")]])])]

/-- C5: a valid bot record with an absent handle is inserted with the owner
id coerced to an integer, the mode left at the default `"direct"` unless a
truthy non-default mode triggers a follow-up update, the forum id set only
when present and truthy, and the bot counter incremented exactly then — a
counter increment never coincides with a recorded error; in particular
`{"bots": [{"bot_username": "alice_bot", "token": "T1"}]}` under owner
`"42"` yields `alice_bot` with integer owner 42, mode `direct` and no forum
id. -/
theorem C5_bot_insert_behavior :
    (∀ (o : String) (st : MigState) (b : Json) (n : Int),
      (jsonGet b "bot_username" .null).falsy = false →
      (jsonGet b "token" .null).falsy = false →
      alookup (jsonGet b "bot_username" .null) st.store.bots = none →
      strToInt o = some n →
      botStep noFaults o st b =
        { st with
          store := { st.store with bots := st.store.bots ++
            [(jsonGet b "bot_username" .null,
              ⟨jsonGet b "token" .null, n, jsonGet b "welcome_msg" (.str ""),
               (if (jsonGet b "mode" (.str "direct")).falsy = true ∨
                   jsonGet b "mode" (.str "direct") = Json.str "direct"
                then Json.str "direct" else jsonGet b "mode" (.str "direct")),
               (if (jsonGet b "forum_group_id" .null).falsy = true then none
                else some (jsonGet b "forum_group_id" .null))⟩)] },
          stats := { st.stats with bots := st.stats.bots + 1 } }) ∧
    (∀ (f : Faults) (o : String) (st : MigState) (b : Json),
      ((botStep f o st b).stats.bots = st.stats.bots + 1 ∧
        (botStep f o st b).stats.errors = st.stats.errors) ∨
      ((botStep f o st b).stats.bots = st.stats.bots ∧
        ((botStep f o st b).stats.errors = st.stats.errors ∨
          (botStep f o st b).stats.errors = st.stats.errors + 1))) ∧
    ((migrate_bots noFaults (.parsed botsDocAlice)
        ⟨Store.empty, Stats.init⟩).store.bots = [(.str "alice_bot", aliceRow)] ∧
      (migrate_bots noFaults (.parsed botsDocAlice)
        ⟨Store.empty, Stats.init⟩).stats.bots = 1 ∧
      (migrate_bots noFaults (.parsed botsDocAlice)
        ⟨Store.empty, Stats.init⟩).stats.errors = 0) :=
  ⟨botStep_success_char, botStep_counter, rfl, rfl, rfl⟩

/-- C5 witness: the insertion characterization at a concrete record. -/
theorem C5_bot_insert_behavior_witness :
    botStep noFaults "42" ⟨Store.empty, Stats.init⟩
      (.obj [("bot_username", .str "alice_bot"), ("token", .str "T1")]) =
      { store := { Store.empty with bots := [(.str "alice_bot", aliceRow)] },
        stats := { Stats.init with bots := 1 } } := by
  have h := C5_bot_insert_behavior.1 "42" ⟨Store.empty, Stats.init⟩
    (.obj [("bot_username", .str "alice_bot"), ("token", .str "T1")]) 42
    (by decide) (by decide) rfl (by decide)
  rw [h]
  rfl

/-- A fault oracle where only the forum-id update for `alice_bot` raises. -/
def forumFaults : Faults :=
  { noFaults with updForumF := fun h => decide (h = Json.str "alice_bot") }

/-- A fault oracle where only the mode update for `alice_bot` raises. -/
def modeFaults : Faults :=
  { noFaults with updModeF := fun h => decide (h = Json.str "alice_bot") }

/-- A bot record for `alice_bot` with a non-default mode and a forum id. -/
def botsDocTopic : Json :=
  .obj [("42", .obj [("bots",
    .arr [.obj [("bot_username", .str "alice_bot"), ("token", .str "T1"),
      ("mode", .str "topic"), ("forum_group_id", .num 5)]])])]

/-- C10 counterexample: when the insert and the mode update succeed but the
forum-id update raises, the surviving row keeps the updated mode `"topic"`,
not the default `"direct"` the claim asserts — while the row is indeed not
rolled back, one error is recorded and the counter is not incremented. -/
theorem C10_updated_mode_survives_forum_failure :
    (migrate_bots forumFaults (.parsed botsDocTopic)
      ⟨Store.empty, Stats.init⟩).store.bots =
        [(.str "alice_bot", ⟨.str "T1", 42, .str "", .str "topic", none⟩)] ∧
    (migrate_bots forumFaults (.parsed botsDocTopic)
      ⟨Store.empty, Stats.init⟩).stats.bots = 0 ∧
    (migrate_bots forumFaults (.parsed botsDocTopic)
      ⟨Store.empty, Stats.init⟩).stats.errors = 1 ∧
    Json.str "topic" ≠ Json.str "direct" :=
  ⟨rfl, rfl, rfl, by decide⟩

/-- C10 (amended): when the insert succeeds but a follow-up update raises,
the inserted row is not rolled back, exactly one error is recorded (the step
is `addError` on the state holding the row) and the counter is untouched;
the surviving row is the freshly inserted one — default mode and no forum id
when the mode update itself raised, and the mode as of the failure point
(updated when a non-default mode had been applied) with no forum id when the
forum-id update raised. -/
theorem C10_partial_failure_amended :
    (∀ (f : Faults) (o : String) (st : MigState) (b : Json) (n : Int),
      (jsonGet b "bot_username" .null).falsy = false →
      (jsonGet b "token" .null).falsy = false →
      alookup (jsonGet b "bot_username" .null) st.store.bots = none →
      strToInt o = some n →
      f.addBotF (jsonGet b "bot_username" .null) = false →
      ¬((jsonGet b "mode" (.str "direct")).falsy = true ∨
        jsonGet b "mode" (.str "direct") = Json.str "direct") →
      f.updModeF (jsonGet b "bot_username" .null) = true →
      botStep f o st b = addError
        { st with store := { st.store with bots := st.store.bots ++
          [(jsonGet b "bot_username" .null,
            ⟨jsonGet b "token" .null, n, jsonGet b "welcome_msg" (.str ""),
             .str "direct", none⟩)] } }) ∧
    (∀ (f : Faults) (o : String) (st : MigState) (b : Json) (n : Int),
      (jsonGet b "bot_username" .null).falsy = false →
      (jsonGet b "token" .null).falsy = false →
      alookup (jsonGet b "bot_username" .null) st.store.bots = none →
      strToInt o = some n →
      f.addBotF (jsonGet b "bot_username" .null) = false →
      f.updModeF (jsonGet b "bot_username" .null) = false →
      (jsonGet b "forum_group_id" .null).falsy = false →
      f.updForumF (jsonGet b "bot_username" .null) = true →
      botStep f o st b = addError
        { st with store := { st.store with bots := st.store.bots ++
          [(jsonGet b "bot_username" .null,
            ⟨jsonGet b "token" .null, n, jsonGet b "welcome_msg" (.str ""),
             (if (jsonGet b "mode" (.str "direct")).falsy = true ∨
                 jsonGet b "mode" (.str "direct") = Json.str "direct"
              then Json.str "direct" else jsonGet b "mode" (.str "direct")),
             none⟩)] } }) := by
  constructor
  · intro f o st b n hu ht habs hn hfa cm hfm
    have hns : (get_bot st.store (jsonGet b "bot_username" .null)).isSome = false := by
      simp [get_bot, habs]
    simp only [botStep, botForumStep, add_bot, update_bot_mode, update_bot_forum_id,
      hu, ht, hn, hns, hfa, hfm, cm, Bool.false_eq_true, or_self, if_false, if_true,
      ite_false, ite_true, iff_false, iff_true, not_false_eq_true, not_true_eq_false]
  · intro f o st b n hu ht habs hn hfa hfm hff hfo
    have hns : (get_bot st.store (jsonGet b "bot_username" .null)).isSome = false := by
      simp [get_bot, habs]
    by_cases cm : ((jsonGet b "mode" (.str "direct")).falsy = true ∨
        jsonGet b "mode" (.str "direct") = Json.str "direct") <;>
    simp only [botStep, botForumStep, add_bot, update_bot_mode, update_bot_forum_id,
      hu, ht, hn, hns, hfa, hfm, hff, hfo, cm, Bool.false_eq_true, or_self, if_false,
      if_true, ite_false, ite_true, iff_false, iff_true, not_false_eq_true,
      not_true_eq_false]
    all_goals try rw [amodify_append_of_absent _ _ _ _ habs]

/-- C10 witness: both failure points at concrete records — a raising mode
update leaves the default row, a raising forum update after a successful
mode update leaves the row with mode `"topic"`; in both cases one error and
no counter increment. -/
theorem C10_partial_failure_amended_witness :
    botStep modeFaults "42" ⟨Store.empty, Stats.init⟩
      (.obj [("bot_username", .str "alice_bot"), ("token", .str "T1"),
        ("mode", .str "topic"), ("forum_group_id", .num 5)]) =
      addError ⟨{ Store.empty with
        bots := [(.str "alice_bot", ⟨.str "T1", 42, .str "", .str "direct", none⟩)] },
        Stats.init⟩ ∧
    botStep forumFaults "42" ⟨Store.empty, Stats.init⟩
      (.obj [("bot_username", .str "alice_bot"), ("token", .str "T1"),
        ("mode", .str "topic"), ("forum_group_id", .num 5)]) =
      addError ⟨{ Store.empty with
        bots := [(.str "alice_bot", ⟨.str "T1", 42, .str "", .str "topic", none⟩)] },
        Stats.init⟩ := by
  constructor
  · have h := C10_partial_failure_amended.1 modeFaults "42" ⟨Store.empty, Stats.init⟩
      (.obj [("bot_username", .str "alice_bot"), ("token", .str "T1"),
        ("mode", .str "topic"), ("forum_group_id", .num 5)]) 42
      (by decide) (by decide) rfl (by decide) (by decide) (by decide) (by decide)
    rw [h]
    rfl
  · have h := C10_partial_failure_amended.2 forumFaults "42" ⟨Store.empty, Stats.init⟩
      (.obj [("bot_username", .str "alice_bot"), ("token", .str "T1"),
        ("mode", .str "topic"), ("forum_group_id", .num 5)]) 42
      (by decide) (by decide) rfl (by decide) (by decide) (by decide) (by decide)
      (by decide)
    rw [h]
    rfl

theorem verifiedDictStep_parse_fail (f : Faults) (bu : Json) (a : MigState × Nat)
    (e : String × Json) (h : strToInt e.1 = none) :
    verifiedDictStep f bu a e = (addError a.1, a.2) := by
  simp [verifiedDictStep, h]

theorem verifiedDictStep_skip (f : Faults) (bu : Json) (a : MigState × Nat)
    (k : String) (v : Json) (n : Int) (fields : List (String × Json))
    (hso : strToInt k = some n) (he : v = .obj fields)
    (hv : is_verified a.1.store bu (.num n) = true) :
    verifiedDictStep f bu a (k, v) = a := by
  simp [verifiedDictStep, hso, he, hv]

theorem verifiedListStep_insert (bu : Json) (a : MigState × Nat) (uid : Json)
    (hv : is_verified a.1.store bu uid = false) :
    verifiedListStep noFaults bu a uid =
      ({ a.1 with store := { a.1.store with
          verified := a.1.store.verified ++ [⟨bu, uid, .str "", .str ""⟩] } },
        a.2 + 1) := by
  simp [verifiedListStep, hv, add_verified_user, noFaults]

theorem verifiedDictStep_insert_defaults (bu : Json) (a : MigState × Nat)
    (k : String) (n : Int) (hso : strToInt k = some n)
    (hv : is_verified a.1.store bu (.num n) = false) :
    verifiedDictStep noFaults bu a (k, .obj []) =
      ({ a.1 with store := { a.1.store with
          verified := a.1.store.verified ++ [⟨bu, .num n, .str "", .str ""⟩] } },
        a.2 + 1) := by
  simp [verifiedDictStep, hso, hv, add_verified_user, noFaults, jsonGet]

theorem verified_step_shape_eq (bu : Json) (a : MigState × Nat) (k : String)
    (n : Int) (hso : strToInt k = some n) :
    verifiedDictStep noFaults bu a (k, .obj []) =
      verifiedListStep noFaults bu a (.num n) := by
  simp [verifiedDictStep, verifiedListStep, hso, jsonGet]

theorem verified_shapes_fold_eq (bu : Json) :
    ∀ (ps : List (String × Int)) (a : MigState × Nat),
    (∀ p ∈ ps, strToInt p.1 = some p.2) →
    (ps.map fun p => (p.1, Json.obj [])).foldl (verifiedDictStep noFaults bu) a =
      (ps.map fun p => Json.num p.2).foldl (verifiedListStep noFaults bu) a := by
  intro ps
  induction ps with
  | nil => intro a _; rfl
  | cons p t ih =>
    intro a h
    simp only [List.map_cons, List.foldl_cons]
    rw [verified_step_shape_eq bu a p.1 p.2 (h p (List.mem_cons_self _ _))]
    exact ih _ (fun q hq => h q (List.mem_cons_of_mem _ hq))

theorem verified_shapes_equiv (bu : String) (ps : List (String × Int)) (st : MigState)
    (h : ∀ p ∈ ps, strToInt p.1 = some p.2) :
    migrate_verified_users noFaults
      (.parsed (.obj [(bu, .obj (ps.map fun p => (p.1, Json.obj [])))])) st =
    migrate_verified_users noFaults
      (.parsed (.obj [(bu, .arr (ps.map fun p => Json.num p.2))])) st := by
  simp only [migrate_verified_users, load_json_file, Json.falsy, List.isEmpty_cons,
    Bool.false_eq_true, if_false, ite_false, objItems, List.foldl_cons, List.foldl_nil]
  simp only [verifiedGroupStep]
  by_cases hb : (get_bot st.store (.str bu)).isNone = true
  · simp [hb]
  · simp only [hb, Bool.false_eq_true, if_false, ite_false]
    rw [verified_shapes_fold_eq (Json.str bu) ps (st, 0) h]

/-- C3 (amended): verified-user groups accept both a raw id sequence and a
detail mapping; in the detail-mapping shape the id string is coerced to an
integer (a coercion failure is one error for that entry only) and absent
`user_name`/`user_username` default to the empty string, while in the
sequence shape the raw id is passed through without coercion; an
already-verified id is skipped silently in both; the two shapes produce
identical migration results when the sequence holds the integers the detail
keys parse to. -/
theorem C3_verified_shapes_amended :
    (∀ (bu : String) (ps : List (String × Int)) (st : MigState),
      (∀ p ∈ ps, strToInt p.1 = some p.2) →
      migrate_verified_users noFaults
        (.parsed (.obj [(bu, .obj (ps.map fun p => (p.1, Json.obj [])))])) st =
      migrate_verified_users noFaults
        (.parsed (.obj [(bu, .arr (ps.map fun p => Json.num p.2))])) st) ∧
    (∀ (f : Faults) (bu : Json) (a : MigState × Nat) (e : String × Json),
      strToInt e.1 = none → verifiedDictStep f bu a e = (addError a.1, a.2)) ∧
    (∀ (f : Faults) (bu : Json) (a : MigState × Nat) (uid : Json),
      is_verified a.1.store bu uid = true → verifiedListStep f bu a uid = a) ∧
    (∀ (f : Faults) (bu : Json) (a : MigState × Nat) (k : String) (v : Json)
        (n : Int) (fields : List (String × Json)),
      strToInt k = some n → v = .obj fields →
      is_verified a.1.store bu (.num n) = true →
      verifiedDictStep f bu a (k, v) = a) ∧
    (∀ (bu : Json) (a : MigState × Nat) (uid : Json),
      is_verified a.1.store bu uid = false →
      verifiedListStep noFaults bu a uid =
        ({ a.1 with store := { a.1.store with
            verified := a.1.store.verified ++ [⟨bu, uid, .str "", .str ""⟩] } },
          a.2 + 1)) ∧
    (∀ (bu : Json) (a : MigState × Nat) (k : String) (n : Int),
      strToInt k = some n → is_verified a.1.store bu (.num n) = false →
      verifiedDictStep noFaults bu a (k, .obj []) =
        ({ a.1 with store := { a.1.store with
            verified := a.1.store.verified ++ [⟨bu, .num n, .str "", .str ""⟩] } },
          a.2 + 1)) :=
  ⟨verified_shapes_equiv, verifiedDictStep_parse_fail, verifiedListStep_skip,
    verifiedDictStep_skip, verifiedListStep_insert, verifiedDictStep_insert_defaults⟩

/-- C3 witness: the shape equivalence at the concrete group
`{"alice_bot": {"5": {}}}` versus `{"alice_bot": [5]}`. -/
theorem C3_verified_shapes_amended_witness :
    migrate_verified_users noFaults
      (.parsed (.obj [("alice_bot", .obj [("5", .obj [])])]))
      ⟨aliceStore, Stats.init⟩ =
    migrate_verified_users noFaults
      (.parsed (.obj [("alice_bot", .arr [.num 5])]))
      ⟨aliceStore, Stats.init⟩ :=
  C3_verified_shapes_amended.1 "alice_bot" [("5", 5)] ⟨aliceStore, Stats.init⟩
    (by decide)
